import Mathlib

/-!
Shallow embedding of the Hive minion orchestrator (src/index.js) in Lean 4,
together with proofs about its lifecycle manager, dependency scheduler and
mailbox system.  Each JavaScript method of the `Hive` class that the claims
touch is translated into an executable Lean function over an explicit state
type.  Filesystem directories become association lists, the Docker engine
becomes an explicit `Adapter` record of oracles, thrown JavaScript `Error`s
become an `Err` sum type, and `Date`/`process.hrtime` values become explicit
parameters.
-/

namespace Hive

/-- The contents of a minion's `meta.json` record.  Field names follow the
JSON fields written by `spawn`, `spawnWaiting`, `start`, `kill`, `pause`,
`resume`, `restart`, `retry`, `clone` and `rename` in src/index.js.  Absent
JSON fields are `none`. -/
structure Minion where
  name : String
  createdAt : String
  task : String
  status : String
  containerId : Option String := none
  dependsOn : Option String := none
  memory : Option String := none
  cpus : Option String := none
  startedAt : Option String := none
  killedAt : Option String := none
  pausedAt : Option String := none
  resumedAt : Option String := none
  restartedAt : Option String := none
  retriedAt : Option String := none
  retryOf : Option String := none
  renamedFrom : Option String := none
  renamedAt : Option String := none
  clonedFrom : Option String := none
  clonedAt : Option String := none
  deriving Repr, DecidableEq

/-- One message in a minion's network inbox, as written by `send`
(src/index.js lines 1947-1970).  The JSON fields are `id`, `from`, `to`,
`body`, `timestamp`; `from`/`to` are Lean keywords so they are rendered
`fromName`/`toName` here. -/
structure Message where
  id : String
  fromName : String
  toName : String
  body : String
  timestamp : String
  deriving Repr, DecidableEq

/-- The on-disk workspace directory of one minion: its `meta.json`, its
`TASK.md` task file (optional: `start` checks for it), and its `STATUS`
sentinel file, which is written by the external worker process and only ever
read by this system. -/
structure MinionDir where
  meta : Minion
  taskFile : Option String := none
  statusFile : Option String := none
  deriving Repr, DecidableEq

/-- The durable state of the whole hive: the `minions` directory (an
association list keyed by directory name, in `readdirSync` order) and the
`network` directory of per-recipient inboxes, each inbox an association list
of (filename, parsed message) in creation order. -/
structure HiveState where
  minions : List (String × MinionDir)
  network : List (String × List (String × Message))
  deriving Repr, DecidableEq

/-- The external Docker engine, abstracted as oracles keyed by minion name.
`run` models `docker run -d --name hive-<name> ...` returning a container id;
`stopRm` models `docker stop` + `docker rm`; `inspect` models
`docker inspect -f {\x7b.State.Status\x7d}`; `pause`/`unpause`/`restart` model the
corresponding docker subcommands.  Each call can fail, modelling a thrown
`execSync` error. -/
structure Adapter where
  run : String → Except String String
  stopRm : String → Except String Unit
  inspect : String → Except String String
  pause : String → Except String Unit
  unpause : String → Except String Unit
  restart : String → Except String Unit

/-- The distinct error kinds thrown by the Hive methods (each JavaScript
`throw new Error(...)` site is mapped to one constructor). -/
inductive Err where
  | nameRequired : Err
  | nameTooLong (name : String) : Err
  | invalidName (name : String) : Err
  | notFound (name : String) : Err
  | recipientNotFound (name : String) : Err
  | alreadyExists (name : String) : Err
  | depNotFound (name : String) : Err
  | invalidTransition (name status : String) : Err
  | missingTask (name : String) : Err
  | adapter (msg : String) : Err
  | runningConflict (name : String) : Err
  | noContainer (name : String) : Err
  deriving Repr, DecidableEq

/-- Options accepted by `spawn`/`start`/`retry` (claudeToken and keepAlive
only shape the docker command line, which the `Adapter` oracle abstracts;
memory and cpus become resource limits recorded in the metadata). -/
structure StartOptions where
  claudeToken : Option String := none
  keepAlive : Bool := false
  memory : Option String := none
  cpus : Option String := none
  deriving Repr, DecidableEq

/-- Options accepted by `clone`. -/
structure CloneOptions where
  workspace : Bool := false
  inbox : Bool := false
  deriving Repr, DecidableEq

instance {ε α : Type} [DecidableEq ε] [DecidableEq α] :
    DecidableEq (Except ε α) := fun a b =>
  match a, b with
  | .error e, .error f =>
    if h : e = f then .isTrue (by rw [h])
    else .isFalse (fun hh => h (by cases hh; rfl))
  | .error _, .ok _ => .isFalse (fun hh => Except.noConfusion hh)
  | .ok _, .error _ => .isFalse (fun hh => Except.noConfusion hh)
  | .ok x, .ok y =>
    if h : x = y then .isTrue (by rw [h])
    else .isFalse (fun hh => h (by cases hh; rfl))

/-- JavaScript truthiness of an optional string value (`undefined`, `null`
and `""` are falsy). -/
def truthy : Option String → Bool
  | some s => s ≠ ""
  | none => false

/-- The JavaScript `a || b` fallback on optional strings, as used for
resource-limit carry-forward (`options.memory || meta.memory`). -/
def jsOr (a b : Option String) : Option String :=
  match a with
  | some s => if s = "" then b else some s
  | none => b

/-- A whitespace character as stripped by the JavaScript
`String.prototype.trim` (the cases that occur in `STATUS` sentinel files and
docker output: space, tab, newline, carriage return). -/
def isJsWhitespace (c : Char) : Bool :=
  c = ' ' || c = Char.ofNat 9 || c = Char.ofNat 10 || c = Char.ofNat 13

/-- The JavaScript `String.prototype.trim`: strip leading and trailing
whitespace. -/
def jsTrim (s : String) : String :=
  ⟨((s.data.dropWhile isJsWhitespace).reverse.dropWhile isJsWhitespace).reverse⟩

/-- Lexicographic comparison of character lists by code point, the order the
JavaScript default `Array.prototype.sort()` comparator induces on strings. -/
def charListLe : List Char → List Char → Bool
  | [], _ => true
  | _ :: _, [] => false
  | a :: as, b :: bs =>
    if a.toNat < b.toNat then true
    else if b.toNat < a.toNat then false
    else charListLe as bs

/-- String comparison backing the JavaScript default sort. -/
def strLe (a b : String) : Bool := charListLe a.data b.data

/-- The single-quote character that wraps `docker inspect -f` output. -/
def squoteChar : Char := Char.ofNat 39

/-- The JavaScript `.replace(<single-quote regex>, "")`: remove every single
quote. -/
def stripSquotes (s : String) : String :=
  ⟨s.data.filter (fun c => ¬ c = squoteChar)⟩

/-- `_validateName` (src/index.js lines 1121-1133): the name must be a
non-empty string, at most 128 characters, and match
`^[a-zA-Z0-9][a-zA-Z0-9_.-]*$`. -/
def isAlnumChar (c : Char) : Bool :=
  (c ≥ 'a' && c ≤ 'z') || (c ≥ 'A' && c ≤ 'Z') || (c ≥ '0' && c ≤ '9')

/-- A character allowed after the first position of a minion name. -/
def isNameChar (c : Char) : Bool :=
  isAlnumChar c || c = '_' || c = '.' || c = '-'

/-- Whether a string matches the regex `^[a-zA-Z0-9][a-zA-Z0-9_.-]*$`. -/
def matchesNamePattern (s : String) : Bool :=
  match s.data with
  | [] => false
  | c :: cs => isAlnumChar c && cs.all isNameChar

/-- `_validateName`: throws `Minion name is required` on an empty name, the
too-long error above 128 characters, and the invalid-name error when the
regex does not match. -/
def validateName (name : String) : Except Err Unit :=
  if name = "" then .error .nameRequired
  else if name.length > 128 then .error (.nameTooLong name)
  else if ¬ matchesNamePattern name then .error (.invalidName name)
  else .ok ()

/-- The error kinds raised by `_validateName` — the errors the spec groups
under the single label `InvalidName`. -/
def isInvalidNameErr : Err → Bool
  | .nameRequired => true
  | .nameTooLong _ => true
  | .invalidName _ => true
  | _ => false

/-- Look up a minion's workspace directory by name (`fs.existsSync` on
`minionsDir/<name>` plus reading its contents). -/
def lookupDir (st : HiveState) (name : String) : Option MinionDir :=
  (st.minions.find? (fun p => p.1 == name)).map (·.2)

/-- Replace the directory stored under `name` (a whole-record rewrite of the
minion's files, leaving every other minion untouched). -/
def setDir (st : HiveState) (name : String) (d : MinionDir) : HiveState :=
  { st with minions := st.minions.map (fun p => if p.1 == name then (p.1, d) else p) }

/-- Create a fresh directory entry for `name` (a `mkdirSync` of a new
workspace). -/
def addDir (st : HiveState) (name : String) (d : MinionDir) : HiveState :=
  { st with minions := st.minions ++ [(name, d)] }

/-- Delete the directory entry for `name`. -/
def removeDir (st : HiveState) (name : String) : HiveState :=
  { st with minions := st.minions.filter (fun p => ¬ p.1 == name) }

/-- Read a minion's `STATUS` sentinel file, the externally written terminal
signal (`none` when either the directory or the file is absent). -/
def readStatusFile (st : HiveState) (name : String) : Option String :=
  (lookupDir st name).bind (·.statusFile)

/-- The external worker process writing its `STATUS` sentinel file.  This is
an environment action, not a `Hive` method: the core only ever reads this
file (spec section 6). -/
def writeStatusFile (st : HiveState) (name content : String) : HiveState :=
  match lookupDir st name with
  | some d => setDir st name { d with statusFile := some content }
  | none => st

/-- `list()` (src/index.js lines 1431-1462) restricted to the metadata
fields: the `meta.json` records in directory order.  The docker
`containerStatus` and `STATUS`-file enrichment that `list` also performs is
not consumed by any operation modelled here (`checkAndStartDependents` uses
only `status`, `dependsOn` and `name`, and re-reads `STATUS` files
directly). -/
def list (st : HiveState) : List Minion :=
  st.minions.map (fun p => p.2.meta)

/-- `spawn(name, task, options)` (src/index.js lines 1178-1246): validate the
name, fail if the workspace already exists, create the workspace with the
task file and a `pending` metadata record, then start a container and update
the metadata to `running` with the container id.  The image-existence
check/build is folded into the `Adapter.run` oracle.  Returns the post state
(partial mutations survive a failure, as on a real filesystem) and the
container id on success. -/
def spawn (ad : Adapter) (st : HiveState) (name task : String)
    (opts : StartOptions) (now : String) : HiveState × Except Err String :=
  match validateName name with
  | .error e => (st, .error e)
  | .ok _ =>
    if lookupDir st name ≠ none then (st, .error (.alreadyExists name))
    else
      let meta0 : Minion :=
        { name := name, createdAt := now, task := task.take 200,
          status := "pending", containerId := none }
      let st1 := addDir st name { meta := meta0, taskFile := some task }
      match ad.run name with
      | .error e => (st1, .error (.adapter e))
      | .ok cid =>
        let meta1 :=
          { meta0 with
            containerId := some cid, status := "running",
            memory := if truthy opts.memory then opts.memory else none,
            cpus := if truthy opts.cpus then opts.cpus else none }
        (setDir st1 name { meta := meta1, taskFile := some task }, .ok cid)

/-- `spawnWaiting(name, task, afterMinion, options)` (src/index.js lines
1257-1294): validate the name, fail if the workspace exists, fail if the
dependency minion's directory does not exist (the JavaScript
`path.join(minionsDir, afterMinion)` of an empty string is the minions
directory itself, which exists), then create the workspace with a `waiting`
metadata record carrying `dependsOn`; no container is started. -/
def spawnWaiting (st : HiveState) (name task afterMinion : String)
    (opts : StartOptions) (now : String) : HiveState × Except Err Unit :=
  match validateName name with
  | .error e => (st, .error e)
  | .ok _ =>
    if lookupDir st name ≠ none then (st, .error (.alreadyExists name))
    else if afterMinion ≠ "" ∧ lookupDir st afterMinion = none then
      (st, .error (.depNotFound afterMinion))
    else
      let meta : Minion :=
        { name := name, createdAt := now, task := task.take 200,
          status := "waiting", containerId := none,
          dependsOn := some afterMinion,
          memory := if truthy opts.memory then opts.memory else none,
          cpus := if truthy opts.cpus then opts.cpus else none }
      (addDir st name { meta := meta, taskFile := some task }, .ok ())

/-- `start(name, options)` (src/index.js lines 1302-1365): fail if the minion
does not exist, fail unless its status is `pending` or `waiting`, fail if it
has no `TASK.md`, resolve resource limits as `options.x || meta.x`, start a
container via the adapter, then rewrite the metadata with the container id,
status `running`, a `startedAt` stamp and the resolved limits. -/
def start (ad : Adapter) (st : HiveState) (name : String)
    (opts : StartOptions) (now : String) : HiveState × Except Err String :=
  match lookupDir st name with
  | none => (st, .error (.notFound name))
  | some dir =>
    if dir.meta.status ≠ "pending" ∧ dir.meta.status ≠ "waiting" then
      (st, .error (.invalidTransition name dir.meta.status))
    else if dir.taskFile = none then (st, .error (.missingTask name))
    else
      let memory := jsOr opts.memory dir.meta.memory
      let cpus := jsOr opts.cpus dir.meta.cpus
      match ad.run name with
      | .error e => (st, .error (.adapter e))
      | .ok cid =>
        let meta' :=
          { dir.meta with
            containerId := some cid, status := "running",
            startedAt := some now,
            memory := if truthy memory then memory else dir.meta.memory,
            cpus := if truthy cpus then cpus else dir.meta.cpus }
        (setDir st name { dir with meta := meta' }, .ok cid)

/-- The body of the `for` loop of `checkAndStartDependents` (src/index.js
lines 1372-1390), iterating over the `list()` snapshot while threading the
evolving state: a snapshot record is considered when its status is `waiting`
and its `dependsOn` is truthy; the dependency's `STATUS` file is then read
from the live state; if it exists and trims to `COMPLETE` the minion is
started.  `start` is called with no surrounding try/catch, so an error from
it aborts the remainder of the loop and propagates. -/
def checkLoop (ad : Adapter) (opts : StartOptions) (now : String) :
    List Minion → HiveState → HiveState × Except Err (List (String × String))
  | [], st => (st, .ok [])
  | m :: rest, st =>
    match m.dependsOn with
    | none => checkLoop ad opts now rest st
    | some dep =>
      if m.status = "waiting" ∧ dep ≠ "" then
        match readStatusFile st dep with
        | none => checkLoop ad opts now rest st
        | some content =>
          if jsTrim content = "COMPLETE" then
            match start ad st m.name opts now with
            | (st', .error e) => (st', .error e)
            | (st', .ok _) =>
              match checkLoop ad opts now rest st' with
              | (st'', .error e) => (st'', .error e)
              | (st'', .ok started) => (st'', .ok ((m.name, dep) :: started))
          else checkLoop ad opts now rest st
      else checkLoop ad opts now rest st

/-- `checkAndStartDependents(options)` (src/index.js lines 1372-1390): one
scheduler pass over the `list()` snapshot. -/
def checkAndStartDependents (ad : Adapter) (st : HiveState)
    (opts : StartOptions) (now : String) :
    HiveState × Except Err (List (String × String)) :=
  checkLoop ad opts now (list st) st

/-- `kill(name)` (src/index.js lines 1595-1617): fail only if the minion does
not exist; attempt `docker stop` + `docker rm` with the error swallowed
("container might already be stopped/removed"); then always set status
`killed` and stamp `killedAt`. -/
def kill (ad : Adapter) (st : HiveState) (name : String) (now : String) :
    HiveState × Except Err Unit :=
  match lookupDir st name with
  | none => (st, .error (.notFound name))
  | some dir =>
    let _ := ad.stopRm name
    let meta' := { dir.meta with status := "killed", killedAt := some now }
    (setDir st name { dir with meta := meta' }, .ok ())

/-- `pause(name)` (src/index.js lines 1704-1727): fail if the minion does not
exist, fail if it has no (truthy) container id, issue `docker pause` — whose
failure IS surfaced — and on success set status `paused` and stamp
`pausedAt`. -/
def pause (ad : Adapter) (st : HiveState) (name : String) (now : String) :
    HiveState × Except Err Unit :=
  match lookupDir st name with
  | none => (st, .error (.notFound name))
  | some dir =>
    if ¬ truthy dir.meta.containerId then (st, .error (.noContainer name))
    else
      match ad.pause name with
      | .error e => (st, .error (.adapter e))
      | .ok _ =>
        let meta' := { dir.meta with status := "paused", pausedAt := some now }
        (setDir st name { dir with meta := meta' }, .ok ())

/-- `resume(name)` (src/index.js lines 1732-1755): like `pause` but issuing
`docker unpause`, setting status `running` and stamping `resumedAt`. -/
def resume (ad : Adapter) (st : HiveState) (name : String) (now : String) :
    HiveState × Except Err Unit :=
  match lookupDir st name with
  | none => (st, .error (.notFound name))
  | some dir =>
    if ¬ truthy dir.meta.containerId then (st, .error (.noContainer name))
    else
      match ad.unpause name with
      | .error e => (st, .error (.adapter e))
      | .ok _ =>
        let meta' := { dir.meta with status := "running", resumedAt := some now }
        (setDir st name { dir with meta := meta' }, .ok ())

/-- `restart(name)` (src/index.js lines 1676-1699): fail if the minion does
not exist or has no container id, issue `docker restart` — failure surfaced —
and on success set status `running` and stamp `restartedAt`. -/
def restart (ad : Adapter) (st : HiveState) (name : String) (now : String) :
    HiveState × Except Err Unit :=
  match lookupDir st name with
  | none => (st, .error (.notFound name))
  | some dir =>
    if ¬ truthy dir.meta.containerId then (st, .error (.noContainer name))
    else
      match ad.restart name with
      | .error e => (st, .error (.adapter e))
      | .ok _ =>
        let meta' := { dir.meta with status := "running", restartedAt := some now }
        (setDir st name { dir with meta := meta' }, .ok ())

/-- `retry(name, options)` (src/index.js lines 2345-2432): fail if the minion
or its `TASK.md` is missing; best-effort `docker stop`+`rm` (swallowed);
remove the `STATUS` file and clear the output directory; carry resource
limits forward from the old metadata unless overridden; start a fresh
container; then rewrite `meta.json` from scratch with status `running`, the
new container id, `retriedAt`, and `retryOf` pointing at the old
`createdAt`. -/
def retry (ad : Adapter) (st : HiveState) (name : String)
    (opts : StartOptions) (now : String) : HiveState × Except Err String :=
  match lookupDir st name with
  | none => (st, .error (.notFound name))
  | some dir =>
    match dir.taskFile with
    | none => (st, .error (.missingTask name))
    | some task =>
      let oldMeta := dir.meta
      let _ := ad.stopRm name
      let dir1 := { dir with statusFile := none }
      let st1 := setDir st name dir1
      let memory := jsOr opts.memory oldMeta.memory
      let cpus := jsOr opts.cpus oldMeta.cpus
      match ad.run name with
      | .error e => (st1, .error (.adapter e))
      | .ok cid =>
        let meta' : Minion :=
          { name := name, createdAt := now, task := task.take 200,
            status := "running", containerId := some cid,
            retriedAt := some now, retryOf := some oldMeta.createdAt,
            memory := if truthy memory then memory else none,
            cpus := if truthy cpus then cpus else none }
        (setDir st1 name { dir1 with meta := meta' }, .ok cid)

/-- Look up a recipient's inbox directory in the network area, defaulting to
the empty list of message files when the directory does not exist. -/
def lookupInbox (st : HiveState) (name : String) : List (String × Message) :=
  ((st.network.find? (fun p => p.1 == name)).map (·.2)).getD []

/-- Replace (or create) the inbox directory entry for `name`. -/
def setInbox (st : HiveState) (name : String) (files : List (String × Message)) :
    HiveState :=
  if (st.network.find? (fun p => p.1 == name)).isSome then
    { st with network := st.network.map (fun p => if p.1 == name then (p.1, files) else p) }
  else
    { st with network := st.network ++ [(name, files)] }

/-- Remove the inbox directory entry for `name`. -/
def removeInbox (st : HiveState) (name : String) : HiveState :=
  { st with network := st.network.filter (fun p => ¬ p.1 == name) }

/-- `clone(sourceName, newName, options)` (src/index.js lines 2155-2250):
validate the new name; fail if the source is missing, the target exists, or
the source has no `TASK.md`.  In workspace mode, deep-copy the directory,
rewrite the metadata with the new name, `clonedFrom`/`clonedAt`, a null
container id and status `pending`, drop the `STATUS` file, clear the output
directory, and optionally copy the inbox.  In task-only mode, create a fresh
workspace with only the task text and a fresh `pending` metadata record. -/
def clone (st : HiveState) (sourceName newName : String)
    (opts : CloneOptions) (now : String) : HiveState × Except Err Unit :=
  match validateName newName with
  | .error e => (st, .error e)
  | .ok _ =>
    match lookupDir st sourceName with
    | none => (st, .error (.notFound sourceName))
    | some src =>
      if lookupDir st newName ≠ none then (st, .error (.alreadyExists newName))
      else
        match src.taskFile with
        | none => (st, .error (.missingTask sourceName))
        | some task =>
          if opts.workspace then
            let meta' :=
              { src.meta with
                name := newName, clonedFrom := some sourceName,
                clonedAt := some now, containerId := none, status := "pending" }
            let st1 := addDir st newName
              { meta := meta', taskFile := some task, statusFile := none }
            let st2 :=
              if opts.inbox then setInbox st1 newName (lookupInbox st sourceName)
              else st1
            (st2, .ok ())
          else
            let meta' : Minion :=
              { name := newName, createdAt := now, task := task.take 200,
                status := "pending", containerId := none,
                clonedFrom := some sourceName, clonedAt := some now }
            (addDir st newName { meta := meta', taskFile := some task }, .ok ())

/-- `rename(oldName, newName)` (src/index.js lines 2440-2489): validate the
new name; fail if the old minion is missing or the new name taken.  If the
metadata holds a container id, ask docker for the container status; only a
reported `running` or `paused` status raises the running-conflict error — an
inspect failure (container already removed) is swallowed and the rename
proceeds.  Then move the workspace, rewrite the metadata with the new name,
`renamedFrom`/`renamedAt` and a cleared container id, and move the network
inbox if one exists. -/
def rename (ad : Adapter) (st : HiveState) (oldName newName : String)
    (now : String) : HiveState × Except Err Unit :=
  match validateName newName with
  | .error e => (st, .error e)
  | .ok _ =>
    match lookupDir st oldName with
    | none => (st, .error (.notFound oldName))
    | some dir =>
      if lookupDir st newName ≠ none then (st, .error (.alreadyExists newName))
      else
        let conflict : Bool :=
          if truthy dir.meta.containerId then
            match ad.inspect oldName with
            | .ok s =>
              let s' := stripSquotes (jsTrim s)
              s' == "running" || s' == "paused"
            | .error _ => false
          else false
        if conflict then (st, .error (.runningConflict oldName))
        else
          let meta' :=
            { dir.meta with
              name := newName, renamedFrom := some oldName,
              renamedAt := some now, containerId := none }
          let st1 := addDir (removeDir st oldName) newName { dir with meta := meta' }
          let st2 :=
            if (st1.network.find? (fun p => p.1 == oldName)).isSome then
              setInbox (removeInbox st1 oldName) newName (lookupInbox st1 oldName)
            else st1
          (st2, .ok ())

/-- Whether a minion's workspace directory exists (the sole existence
predicate used by the mailbox methods). -/
def minionExists (st : HiveState) (name : String) : Bool :=
  (lookupDir st name).isSome

/-- The JavaScript `String.prototype.endsWith` test, used by `inbox` and
`clearInbox` to select `.json` message files. -/
def endsWithStr (s suffix : String) : Bool :=
  decide (suffix.data <:+ s.data)

/-- The JavaScript `fs.writeFileSync` into a directory listing: when a file
with that name already exists its contents are overwritten in place,
otherwise a new file is created. -/
def writeFile (files : List (String × Message)) (fname : String)
    (msg : Message) : List (String × Message) :=
  if (files.find? (fun p => p.1 == fname)).isSome then
    files.map (fun p => if p.1 == fname then (p.1, msg) else p)
  else files ++ [(fname, msg)]

/-- `send(from, to, body)` (src/index.js lines 1947-1970): fail if either
minion's workspace is missing; build the message id from the high-resolution
`process.hrtime.bigint()` reading, the sender's name and a random suffix
(`hrtime` and `rand` are explicit parameters here); write the message as the
`<id>.json` file in the recipient's inbox directory via `fs.writeFileSync`,
which silently overwrites any existing file of the same name. -/
def send (st : HiveState) (fromName toName body : String) (hrtime : Nat)
    (rand : String) (now : String) : HiveState × Except Err Message :=
  if ¬ minionExists st fromName then (st, .error (.notFound fromName))
  else if ¬ minionExists st toName then (st, .error (.recipientNotFound toName))
  else
    let id := toString hrtime ++ "-" ++ fromName ++ "-" ++ rand
    let msg : Message :=
      { id := id, fromName := fromName, toName := toName, body := body,
        timestamp := now }
    (setInbox st toName (writeFile (lookupInbox st toName) (id ++ ".json") msg),
     .ok msg)

/-- `inbox(name)` (src/index.js lines 1975-1987): fail if the minion is
missing; return `[]` when the inbox directory does not exist; otherwise read
the directory, keep the `.json` files, sort the filenames ascending (the
JavaScript default lexicographic `sort()`), and parse each file. -/
def inbox (st : HiveState) (name : String) : Except Err (List Message) :=
  if ¬ minionExists st name then .error (.notFound name)
  else
    .ok ((((lookupInbox st name).filter (fun p => endsWithStr p.1 ".json")).insertionSort
      (fun a b => strLe a.1 b.1 = true)).map (·.2))

/-- `clearInbox(name)` (src/index.js lines 2011-2024): fail if the minion is
missing; return 0 when the inbox directory does not exist; otherwise delete
every `.json` file and return how many were deleted. -/
def clearInbox (st : HiveState) (name : String) : HiveState × Except Err Nat :=
  if ¬ minionExists st name then (st, .error (.notFound name))
  else
    let files := (lookupInbox st name).filter (fun p => endsWithStr p.1 ".json")
    (setInbox st name ((lookupInbox st name).filter (fun p => ¬ endsWithStr p.1 ".json")),
     .ok files.length)

/-- The three results of the bounded wait-for-completion operation. -/
inductive WaitOutcome where
  | complete : WaitOutcome
  | failed : WaitOutcome
  | timeout : WaitOutcome
  deriving Repr, DecidableEq

/-- The loop of `wait` (src/index.js lines 1521-1546).  `sig k` is the
contents of the worker's `STATUS` file as observed at the k-th poll (the file
is written by the external worker process, so it is a time-indexed oracle
here); `status()` trims it into `taskStatus`.  The loop returns `COMPLETE` or
`FAILED` on the corresponding trimmed signal, and `TIMEOUT` once the elapsed
time — `k * pollMs` after `k` sleeps under idealized exact-interval timing —
strictly exceeds `timeoutMs`.  `fuel` bounds the structural recursion; `wait`
below supplies enough fuel that the bound is never the reason for
termination. -/
def waitGo (sig : Nat → Option String) (timeoutMs pollMs : Nat) :
    Nat → Nat → WaitOutcome
  | 0, _ => .timeout
  | fuel + 1, k =>
    let taskStatus := (sig k).map jsTrim
    if taskStatus = some "COMPLETE" then .complete
    else if taskStatus = some "FAILED" then .failed
    else if k * pollMs > timeoutMs then .timeout
    else waitGo sig timeoutMs pollMs fuel (k + 1)

/-- `wait(name, options)` (src/index.js lines 1521-1546) over the
time-indexed signal oracle.  With `0 < pollMs` (the JavaScript
`options.pollMs || 2000` default makes a zero interval impossible), the fuel
`timeoutMs / pollMs + 2` covers every poll up to and including the first one
whose elapsed time exceeds the timeout. -/
def wait (sig : Nat → Option String) (timeoutMs pollMs : Nat) : WaitOutcome :=
  waitGo sig timeoutMs pollMs (timeoutMs / pollMs + 2) 0

/-- The metadata invariant of spec section 3: status `running` or `paused`
implies a non-null container id, and status `waiting` implies a non-null
`dependsOn` and a null container id. -/
def minionInv (m : Minion) : Prop :=
  ((m.status = "running" ∨ m.status = "paused") → m.containerId ≠ none) ∧
  (m.status = "waiting" → m.dependsOn ≠ none ∧ m.containerId = none)

instance (m : Minion) : Decidable (minionInv m) := by
  unfold minionInv; infer_instance

/-- The metadata invariant over every minion of a state. -/
def stateInv (st : HiveState) : Prop :=
  ∀ p ∈ st.minions, minionInv p.2.meta

instance (st : HiveState) : Decidable (stateInv st) := by
  unfold stateInv; infer_instance

/-- Association-list lookup by key, the common shape of `lookupDir` and
`lookupInbox`. -/
def lookupA {α : Type} (l : List (String × α)) (n : String) : Option α :=
  (l.find? (fun p => p.1 == n)).map (·.2)

/-- The workspace directory a successful `start` leaves behind: the same
files with the metadata updated to `running`, the new container id, a
`startedAt` stamp and the resolved resource limits. -/
def startedDir (d : MinionDir) (opts : StartOptions) (cid now : String) :
    MinionDir :=
  { d with meta :=
    { d.meta with
      containerId := some cid, status := "running",
      startedAt := some now,
      memory :=
        if truthy (jsOr opts.memory d.meta.memory) then
          jsOr opts.memory d.meta.memory
        else d.meta.memory,
      cpus :=
        if truthy (jsOr opts.cpus d.meta.cpus) then
          jsOr opts.cpus d.meta.cpus
        else d.meta.cpus } }

/-- Eligibility of a snapshot record for promotion by one scheduler pass, read
against the state the pass started from: status `waiting`, truthy
`dependsOn`, and a dependency `STATUS` file that trims to `COMPLETE`. -/
def eligibleB (st : HiveState) (m : Minion) : Bool :=
  m.status == "waiting" &&
    (match m.dependsOn with
     | some dep =>
       dep != "" &&
         (match readStatusFile st dep with
          | some content => jsTrim content == "COMPLETE"
          | none => false)
     | none => false)

/-- One call to `send` as seen from the outside: the sender, the body, and
the environment-supplied `process.hrtime.bigint()` reading, random suffix
and timestamp of that call. -/
structure SendReq where
  sender : String
  body : String
  hrtime : Nat
  rand : String
  now : String
  deriving Repr, DecidableEq

/-- The inbox filename `send` writes for a request. -/
def sendFilename (r : SendReq) : String :=
  toString r.hrtime ++ "-" ++ r.sender ++ "-" ++ r.rand ++ ".json"

/-- The message record `send` writes for a request. -/
def sendMsg (toName : String) (r : SendReq) : Message :=
  { id := toString r.hrtime ++ "-" ++ r.sender ++ "-" ++ r.rand,
    fromName := r.sender, toName := toName, body := r.body,
    timestamp := r.now }

/-- A sequence of `send` calls to one recipient, in call order. -/
def sendAll (st : HiveState) (toName : String) (reqs : List SendReq) :
    HiveState :=
  reqs.foldl
    (fun s r => (send s r.sender toName r.body r.hrtime r.rand r.now).1) st

/-- Whether an observed `STATUS` file content is a terminal signal for the
`wait` loop: its trimmed value is `COMPLETE` or `FAILED`. -/
def isTerminalSig (o : Option String) : Bool :=
  match o with
  | some s => jsTrim s == "COMPLETE" || jsTrim s == "FAILED"
  | none => false

/-! ### Concrete fixtures used to instantiate theorems at closed inputs -/

/-- An adapter whose behavior is given by the `run` and `inspect` oracles and
whose remaining calls always succeed. -/
def mkAdapter (runf inspectf : String → Except String String) : Adapter :=
  { run := runf, stopRm := fun _ => .ok (), inspect := inspectf,
    pause := fun _ => .ok (), unpause := fun _ => .ok (),
    restart := fun _ => .ok () }

/-- An adapter for which every docker call succeeds. -/
def adOk : Adapter := mkAdapter (fun _ => .ok "cid-1") (fun _ => .ok "running")

/-- A concrete workspace directory fixture. -/
def mkDir (name status : String) (dep : Option String) (task : Option String)
    (sig : Option String) : MinionDir :=
  { meta := { name := name, createdAt := "T0", task := "t", status := status,
              dependsOn := dep },
    taskFile := task, statusFile := sig }

/-- An adapter whose container starts succeed and whose `docker inspect`
reports every container as `exited`. -/
def adExited : Adapter := mkAdapter (fun _ => .ok "c1") (fun _ => .ok "exited")

/-- The state reached by spawning minion `a` on that adapter: `a` has
metadata status `running` and container id `c1`, but docker reports its
container as `exited`. -/
def stExited : HiveState := (spawn adExited ⟨[], []⟩ "a" "t" {} "T0").1

/-- A one-minion state holding a `pending` minion `a` with a task file. -/
def stPend : HiveState := ⟨[("a", mkDir "a" "pending" none (some "t") none)], []⟩

/-! ### Frame lemmas for the association lists backing the two directories -/

theorem lookupDir_eq_lookupA (st : HiveState) (n : String) :
    lookupDir st n = lookupA st.minions n := rfl

theorem lookupA_nil {α : Type} (n : String) : lookupA ([] : List (String × α)) n = none := rfl

theorem lookupA_cons {α : Type} (p : String × α) (l : List (String × α)) (n : String) :
    lookupA (p :: l) n = if p.1 = n then some p.2 else lookupA l n := by
  by_cases h : p.1 = n
  · simp [lookupA, List.find?_cons_of_pos, h]
  · have hb : (p.1 == n) = false := by simpa using h
    simp [lookupA, List.find?_cons_of_neg, hb, h]

theorem lookupA_replace_self {α : Type} (l : List (String × α)) (n : String) (d : α) :
    lookupA (l.map (fun p => if p.1 == n then (p.1, d) else p)) n
      = (lookupA l n).map (fun _ => d) := by
  simp only [beq_iff_eq]
  induction l with
  | nil => rfl
  | cons p rest ih =>
    by_cases h : p.1 = n
    · simp [lookupA_cons, h]
    · simp [lookupA_cons, h, ih]

theorem lookupA_replace_ne {α : Type} (l : List (String × α)) (n m : String) (d : α)
    (h : m ≠ n) :
    lookupA (l.map (fun p => if p.1 == n then (p.1, d) else p)) m = lookupA l m := by
  simp only [beq_iff_eq]
  induction l with
  | nil => rfl
  | cons p rest ih =>
    by_cases hp : p.1 = n
    · have hne : ¬ p.1 = m := by rw [hp]; exact fun hh => h hh.symm
      simp [lookupA_cons, hp, hne, Ne.symm h, ih]
    · simp [lookupA_cons, hp, ih]

theorem lookupA_append {α : Type} (l₁ l₂ : List (String × α)) (n : String) :
    lookupA (l₁ ++ l₂) n =
      match lookupA l₁ n with
      | some x => some x
      | none => lookupA l₂ n := by
  induction l₁ with
  | nil => rfl
  | cons p rest ih =>
    by_cases h : p.1 = n
    · simp [lookupA_cons, h]
    · simp [lookupA_cons, h, ih]

theorem lookupA_filter_out {α : Type} (l : List (String × α)) (n m : String) :
    lookupA (l.filter (fun p => ¬ p.1 == n)) m
      = if m = n then none else lookupA l m := by
  simp only [beq_iff_eq, decide_not]
  induction l with
  | nil => by_cases h : m = n <;> simp [lookupA_nil, h]
  | cons p rest ih =>
    by_cases hp : p.1 = n
    · by_cases h : m = n
      · subst h; simp [List.filter_cons, lookupA_cons, hp, ih]
      · have hne : ¬ p.1 = m := by rw [hp]; exact fun hh => h hh.symm
        simp [List.filter_cons, lookupA_cons, hp, h, hne, Ne.symm h, ih]
    · by_cases hm : p.1 = m
      · have h : ¬ m = n := by rw [← hm]; exact fun hh => hp hh
        simp [List.filter_cons, lookupA_cons, hp, hm, h, ih]
      · simp [List.filter_cons, lookupA_cons, hp, hm, ih]

theorem lookupDir_setDir_self (st : HiveState) (n : String) (d : MinionDir) :
    lookupDir (setDir st n d) n = (lookupDir st n).map (fun _ => d) :=
  lookupA_replace_self st.minions n d

theorem lookupDir_setDir_ne (st : HiveState) (n m : String) (d : MinionDir)
    (h : m ≠ n) : lookupDir (setDir st n d) m = lookupDir st m :=
  lookupA_replace_ne st.minions n m d h

theorem lookupDir_addDir (st : HiveState) (n m : String) (d : MinionDir) :
    lookupDir (addDir st n d) m =
      match lookupDir st m with
      | some x => some x
      | none => if m = n then some d else none := by
  show lookupA (st.minions ++ [(n, d)]) m = _
  rw [lookupA_append, lookupDir_eq_lookupA]
  cases lookupA st.minions m with
  | some x => rfl
  | none =>
    by_cases h : m = n
    · simp [lookupA_cons, h]
    · simp [lookupA_cons, lookupA_nil, h, Ne.symm h]

theorem lookupDir_removeDir (st : HiveState) (n m : String) :
    lookupDir (removeDir st n) m = if m = n then none else lookupDir st m :=
  lookupA_filter_out st.minions n m

theorem setDir_network (st : HiveState) (n : String) (d : MinionDir) :
    (setDir st n d).network = st.network := rfl

theorem addDir_network (st : HiveState) (n : String) (d : MinionDir) :
    (addDir st n d).network = st.network := rfl

theorem readStatusFile_setDir (st : HiveState) (n : String) (d : MinionDir)
    (dir : MinionDir) (h : lookupDir st n = some dir)
    (hd : d.statusFile = dir.statusFile) :
    ∀ x, readStatusFile (setDir st n d) x = readStatusFile st x := by
  intro x
  unfold readStatusFile
  by_cases hx : x = n
  · subst hx; rw [lookupDir_setDir_self, h]; simp [hd]
  · rw [lookupDir_setDir_ne st n x d hx]

/-! ### Characterization of `start` -/

theorem start_not_pending_waiting (ad : Adapter) (st : HiveState)
    (name : String) (opts : StartOptions) (now : String) (dir : MinionDir)
    (h : lookupDir st name = some dir)
    (hs : dir.meta.status ≠ "pending" ∧ dir.meta.status ≠ "waiting") :
    start ad st name opts now =
      (st, .error (.invalidTransition name dir.meta.status)) := by
  unfold start
  rw [h]
  simp only [hs, and_true, if_pos, hs.1, hs.2]
  simp [hs]

theorem start_missing_task (ad : Adapter) (st : HiveState) (name : String)
    (opts : StartOptions) (now : String) (dir : MinionDir)
    (h : lookupDir st name = some dir)
    (hs : dir.meta.status = "pending" ∨ dir.meta.status = "waiting")
    (ht : dir.taskFile = none) :
    start ad st name opts now = (st, .error (.missingTask name)) := by
  unfold start
  rw [h]
  have hns : ¬ (dir.meta.status ≠ "pending" ∧ dir.meta.status ≠ "waiting") := by
    rcases hs with hs | hs <;> simp [hs]
  simp [hns, ht]

theorem start_ok (ad : Adapter) (st : HiveState) (name : String)
    (opts : StartOptions) (now : String) (dir : MinionDir) (cid : String)
    (h : lookupDir st name = some dir)
    (hs : dir.meta.status = "pending" ∨ dir.meta.status = "waiting")
    (ht : dir.taskFile.isSome)
    (hr : ad.run name = .ok cid) :
    start ad st name opts now =
      (setDir st name (startedDir dir opts cid now), .ok cid) := by
  unfold start
  rw [h]
  have hns : ¬ (dir.meta.status ≠ "pending" ∧ dir.meta.status ≠ "waiting") := by
    rcases hs with hs | hs <;> simp [hs]
  have ht' : ¬ dir.taskFile = none := by
    cases htf : dir.taskFile with
    | none => rw [htf] at ht; simp at ht
    | some t => simp
  simp [hns, ht', hr, startedDir]

theorem start_adapter_error (ad : Adapter) (st : HiveState) (name : String)
    (opts : StartOptions) (now : String) (dir : MinionDir) (e : String)
    (h : lookupDir st name = some dir)
    (hs : dir.meta.status = "pending" ∨ dir.meta.status = "waiting")
    (ht : dir.taskFile.isSome)
    (hr : ad.run name = .error e) :
    start ad st name opts now = (st, .error (.adapter e)) := by
  unfold start
  rw [h]
  have hns : ¬ (dir.meta.status ≠ "pending" ∧ dir.meta.status ≠ "waiting") := by
    rcases hs with hs | hs <;> simp [hs]
  have ht' : ¬ dir.taskFile = none := by
    cases htf : dir.taskFile with
    | none => rw [htf] at ht; simp at ht
    | some t => simp
  simp [hns, ht', hr]

/-- The resource limit recorded by a successful `start` equals the
`override || stored` fallback: when the resolved value is falsy it coincides
with the stored value, so the conditional write is the identity. -/
theorem jsOr_resolve (o b : Option String) :
    (if truthy (jsOr o b) then jsOr o b else b) = jsOr o b := by
  cases o with
  | none =>
    simp only [jsOr]
    cases b with
    | none => simp [truthy]
    | some s => by_cases hs : s = "" <;> simp [truthy, hs]
  | some s =>
    by_cases hs : s = ""
    · subst hs
      simp only [jsOr, if_pos rfl]
      cases b with
      | none => simp [truthy]
      | some t => by_cases htt : t = "" <;> simp [truthy, htt]
    · simp [jsOr, hs, truthy]

/-- C4: for an existing worker, `start` succeeds only from `pending` or
`waiting` (failing with the invalid-transition error otherwise), fails with
the missing-task error when no task content exists, resolves each resource
limit as the explicit override when given and the previously stored value
otherwise, and on success sets the status to `running`, stamps `startedAt`
and records the container handle returned by the runtime adapter. -/
theorem start_spec (ad : Adapter) (st : HiveState) (name : String)
    (opts : StartOptions) (now : String) (dir : MinionDir)
    (h : lookupDir st name = some dir) :
    (dir.meta.status ≠ "pending" ∧ dir.meta.status ≠ "waiting" →
      start ad st name opts now
        = (st, .error (.invalidTransition name dir.meta.status))) ∧
    ((dir.meta.status = "pending" ∨ dir.meta.status = "waiting") →
      dir.taskFile = none →
      start ad st name opts now = (st, .error (.missingTask name))) ∧
    (∀ cid, (dir.meta.status = "pending" ∨ dir.meta.status = "waiting") →
      dir.taskFile.isSome → ad.run name = .ok cid →
      (start ad st name opts now).2 = .ok cid ∧
      ∃ d', lookupDir (start ad st name opts now).1 name = some d' ∧
        d'.meta.status = "running" ∧
        d'.meta.startedAt = some now ∧
        d'.meta.containerId = some cid ∧
        d'.meta.memory = jsOr opts.memory dir.meta.memory ∧
        d'.meta.cpus = jsOr opts.cpus dir.meta.cpus) := by
  refine ⟨fun hs => start_not_pending_waiting ad st name opts now dir h hs,
    fun hs ht => start_missing_task ad st name opts now dir h hs ht,
    fun cid hs ht hr => ?_⟩
  rw [start_ok ad st name opts now dir cid h hs ht hr]
  refine ⟨rfl, ?_⟩
  refine ⟨_, by rw [lookupDir_setDir_self, h]; rfl, rfl, rfl, rfl, ?_, ?_⟩
  · exact jsOr_resolve opts.memory dir.meta.memory
  · exact jsOr_resolve opts.cpus dir.meta.cpus

/-- Witness for C4, applying `start_spec` to a concrete pending worker with
an always-succeeding adapter. -/
theorem start_spec_witness :
    (start adOk
      { minions := [("a", mkDir "a" "pending" none (some "t") none)], network := [] }
      "a" {} "T1").2 = Except.ok "cid-1" :=
  ((start_spec adOk
      { minions := [("a", mkDir "a" "pending" none (some "t") none)], network := [] }
      "a" {} "T1" (mkDir "a" "pending" none (some "t") none) (by decide)).2.2
    "cid-1" (Or.inl (by decide)) (by decide) rfl).1

/-- C5: for an existing worker, `kill` always succeeds, always sets the
status to `killed` and stamps `killedAt`, and its outcome is independent of
the runtime adapter: a failing `docker stop`/`docker rm` neither blocks the
transition nor surfaces to the caller. -/
theorem kill_spec (ad : Adapter) (st : HiveState) (name : String)
    (now : String) (dir : MinionDir) (h : lookupDir st name = some dir) :
    (kill ad st name now).2 = .ok () ∧
    (∃ d', lookupDir (kill ad st name now).1 name = some d' ∧
      d'.meta.status = "killed" ∧ d'.meta.killedAt = some now) ∧
    (∀ ad' : Adapter, kill ad' st name now = kill ad st name now) := by
  unfold kill
  rw [h]
  exact ⟨rfl, ⟨_, by rw [lookupDir_setDir_self, h]; rfl, rfl, rfl⟩,
    fun ad' => rfl⟩

/-- Witness for C5, applying `kill_spec` to a concrete running worker under
an adapter whose `stop`/`rm` calls fail (no live container binding). -/
theorem kill_spec_witness :
    (kill
      { run := fun _ => Except.error "no docker",
        stopRm := fun _ => Except.error "no such container",
        inspect := fun _ => Except.error "no such container",
        pause := fun _ => Except.error "no docker",
        unpause := fun _ => Except.error "no docker",
        restart := fun _ => Except.error "no docker" }
      { minions := [("a", mkDir "a" "running" none (some "t") none)], network := [] }
      "a" "T1").2 = Except.ok () :=
  (kill_spec
      { run := fun _ => Except.error "no docker",
        stopRm := fun _ => Except.error "no such container",
        inspect := fun _ => Except.error "no such container",
        pause := fun _ => Except.error "no docker",
        unpause := fun _ => Except.error "no docker",
        restart := fun _ => Except.error "no docker" }
      { minions := [("a", mkDir "a" "running" none (some "t") none)], network := [] }
      "a" "T1" (mkDir "a" "running" none (some "t") none) (by decide)).1

/-! ### Frame properties of `start` and the scheduler pass -/

theorem start_preserves_statusFile (ad : Adapter) (st : HiveState)
    (name : String) (opts : StartOptions) (now : String) (x : String) :
    readStatusFile (start ad st name opts now).1 x = readStatusFile st x := by
  unfold start
  cases h : lookupDir st name with
  | none => rfl
  | some dir =>
    dsimp only
    by_cases hs : dir.meta.status ≠ "pending" ∧ dir.meta.status ≠ "waiting"
    · rw [if_pos hs]
    · rw [if_neg hs]
      by_cases ht : dir.taskFile = none
      · rw [if_pos ht]
      · rw [if_neg ht]
        cases hr : ad.run name with
        | error e => rfl
        | ok cid =>
          dsimp only
          refine readStatusFile_setDir st name _ dir h ?_ x
          rfl

theorem start_lookupDir_ne (ad : Adapter) (st : HiveState) (name : String)
    (opts : StartOptions) (now : String) (x : String) (hx : x ≠ name) :
    lookupDir (start ad st name opts now).1 x = lookupDir st x := by
  unfold start
  cases h : lookupDir st name with
  | none => rfl
  | some dir =>
    dsimp only
    by_cases hs : dir.meta.status ≠ "pending" ∧ dir.meta.status ≠ "waiting"
    · rw [if_pos hs]
    · rw [if_neg hs]
      by_cases ht : dir.taskFile = none
      · rw [if_pos ht]
      · rw [if_neg ht]
        cases hr : ad.run name with
        | error e => rfl
        | ok cid =>
          dsimp only
          exact lookupDir_setDir_ne st name x _ hx

theorem eligibleB_congr (st st' : HiveState) (m : Minion)
    (h : ∀ x, readStatusFile st' x = readStatusFile st x) :
    eligibleB st' m = eligibleB st m := by
  unfold eligibleB
  cases m.dependsOn with
  | none => rfl
  | some dep => dsimp only; rw [h dep]

theorem setDir_keys (st : HiveState) (n : String) (d : MinionDir) :
    (setDir st n d).minions.map (fun p => p.1)
      = st.minions.map (fun p => p.1) := by
  unfold setDir
  rw [List.map_map]
  apply List.map_congr_left
  intro p hp
  by_cases h : p.1 = n <;> simp [h]

/-- The central induction for one scheduler pass: when every eligible
snapshot record has an intact workspace and a succeeding adapter start, the
pass returns exactly the eligible records (in snapshot order), promotes each
of them to `running`, leaves every other directory untouched, and never
writes any `STATUS` file. -/
theorem checkLoop_spec (ad : Adapter) (opts : StartOptions) (now : String)
    (st0 : HiveState) :
    ∀ (ms : List Minion) (stCur : HiveState),
    (∀ x, readStatusFile stCur x = readStatusFile st0 x) →
    (∀ m ∈ ms, lookupDir stCur m.name = lookupDir st0 m.name) →
    (ms.map (fun m => m.name)).Nodup →
    (∀ m ∈ ms, eligibleB st0 m = true →
      ∃ d, lookupDir st0 m.name = some d ∧ d.meta = m ∧ d.taskFile.isSome ∧
        ∃ cid, ad.run m.name = Except.ok cid) →
    (checkLoop ad opts now ms stCur).2
        = .ok ((ms.filter (fun m => eligibleB st0 m)).map
            (fun m => (m.name, m.dependsOn.getD ""))) ∧
    (∀ x, x ∉ (ms.filter (fun m => eligibleB st0 m)).map (fun m => m.name) →
      lookupDir (checkLoop ad opts now ms stCur).1 x = lookupDir stCur x) ∧
    (∀ m ∈ ms, eligibleB st0 m = true →
      ∃ d cid, lookupDir stCur m.name = some d ∧
        ad.run m.name = Except.ok cid ∧
        lookupDir (checkLoop ad opts now ms stCur).1 m.name
          = some (startedDir d opts cid now)) ∧
    (∀ x, readStatusFile (checkLoop ad opts now ms stCur).1 x
        = readStatusFile stCur x) ∧
    ((checkLoop ad opts now ms stCur).1.minions.map (fun p => p.1)
        = stCur.minions.map (fun p => p.1)) := by
  intro ms
  induction ms with
  | nil =>
    intro stCur hsig hms hnd helig
    exact ⟨rfl, fun x _ => rfl, fun m hm => absurd hm (List.not_mem_nil m),
      fun x => rfl, rfl⟩
  | cons m rest ih =>
    intro stCur hsig hms hnd helig
    have hnd' := hnd
    rw [List.map_cons, List.nodup_cons] at hnd'
    obtain ⟨hmname, hndr⟩ := hnd' 
    cases hdep : m.dependsOn with
    | none =>
      have helB : eligibleB st0 m = false := by
        unfold eligibleB; rw [hdep]; simp
      have hrec := ih stCur hsig (fun m' hm' => hms m' (List.mem_cons_of_mem m hm'))
        hndr (fun m' hm' => helig m' (List.mem_cons_of_mem m hm'))
      have hloop : checkLoop ad opts now (m :: rest) stCur
          = checkLoop ad opts now rest stCur := by
        rw [checkLoop, hdep]
      rw [hloop, List.filter_cons, helB]
      simp only [Bool.false_eq_true, if_false]
      refine ⟨hrec.1, hrec.2.1, ?_, hrec.2.2.2.1, hrec.2.2.2.2⟩
      intro m' hm' he'
      rcases List.mem_cons.mp hm' with h | h
      · subst h; rw [helB] at he'; cases he'
      · exact hrec.2.2.1 m' h he'
    | some dep =>
      by_cases hw : m.status = "waiting" ∧ dep ≠ ""
      · cases hsf : readStatusFile st0 dep with
        | none =>
          have helB : eligibleB st0 m = false := by
            unfold eligibleB; rw [hdep]; dsimp only; rw [hsf]; simp
          have hrec := ih stCur hsig (fun m' hm' => hms m' (List.mem_cons_of_mem m hm'))
            hndr (fun m' hm' => helig m' (List.mem_cons_of_mem m hm'))
          have hloop : checkLoop ad opts now (m :: rest) stCur
              = checkLoop ad opts now rest stCur := by
            rw [checkLoop, hdep]
            dsimp only
            rw [if_pos hw, hsig dep, hsf]
          rw [hloop, List.filter_cons, helB]
          simp only [Bool.false_eq_true, if_false]
          refine ⟨hrec.1, hrec.2.1, ?_, hrec.2.2.2.1, hrec.2.2.2.2⟩
          intro m' hm' he'
          rcases List.mem_cons.mp hm' with h | h
          · subst h; rw [helB] at he'; cases he'
          · exact hrec.2.2.1 m' h he'
        | some content =>
          by_cases hc : jsTrim content = "COMPLETE"
          · -- m is eligible: promote it, then recurse on the updated state.
            have helB : eligibleB st0 m = true := by
              unfold eligibleB
              rw [hdep]
              dsimp only
              rw [hsf]
              simp [hw.1, hw.2, hc]
            obtain ⟨d, hd0, hdm, hdt, cid, hrun⟩ :=
              helig m (List.mem_cons_self m rest) helB
            have hdcur : lookupDir stCur m.name = some d :=
              (hms m (List.mem_cons_self m rest)).trans hd0
            have hwait : d.meta.status = "pending" ∨ d.meta.status = "waiting" :=
              Or.inr (by rw [hdm]; exact hw.1)
            have hstart := start_ok ad stCur m.name opts now d cid hdcur hwait hdt hrun
            set d' : MinionDir := startedDir d opts cid now with hd'
            set st' := setDir stCur m.name d' with hst'
            have hsig' : ∀ x, readStatusFile st' x = readStatusFile st0 x :=
              fun x => (readStatusFile_setDir stCur m.name d' d hdcur rfl x).trans (hsig x)
            have hms' : ∀ m' ∈ rest, lookupDir st' m'.name = lookupDir st0 m'.name := by
              intro m' hm'
              have hne : m'.name ≠ m.name := by
                intro hEq
                exact hmname (hEq ▸ List.mem_map_of_mem (fun m => m.name) hm')
              rw [hst', lookupDir_setDir_ne stCur m.name m'.name d' hne]
              exact hms m' (List.mem_cons_of_mem m hm')
            have hrec := ih st' hsig' hms' hndr
              (fun m' hm' => helig m' (List.mem_cons_of_mem m hm'))
            have hloop : checkLoop ad opts now (m :: rest) stCur
                = ((checkLoop ad opts now rest st').1,
                   match (checkLoop ad opts now rest st').2 with
                   | .error e => .error e
                   | .ok started => .ok ((m.name, dep) :: started)) := by
              rw [checkLoop, hdep]
              dsimp only
              rw [if_pos hw, hsig dep, hsf]
              dsimp only
              rw [if_pos hc, hstart]
              dsimp only
              rcases hrc : checkLoop ad opts now rest st' with ⟨stFin, r⟩
              cases r with
              | error e => rfl
              | ok started => rfl
            rw [hloop]
            rw [List.filter_cons, helB]
            simp only [if_pos rfl]
            constructor
            · rw [hrec.1]
              simp [hdep]
            constructor
            · intro x hx
              have hx1 : x ≠ m.name := by
                intro hEq; exact hx (by rw [hEq]; simp)
              have hx2 : x ∉ (rest.filter (fun m => eligibleB st0 m)).map
                  (fun m => m.name) := by
                intro hmem; exact hx (by simp [hmem])
              rw [hrec.2.1 x hx2, hst', lookupDir_setDir_ne stCur m.name x d' hx1]
            constructor
            · intro m' hm' he'
              rcases List.mem_cons.mp hm' with h | h
              · subst h
                have hnx : m'.name ∉ (rest.filter (fun m => eligibleB st0 m)).map
                    (fun m => m.name) := by
                  intro hmem
                  rcases List.mem_map.mp hmem with ⟨y, hy, hyname⟩
                  exact hmname (hyname ▸ List.mem_map_of_mem (fun m => m.name)
                    (List.mem_of_mem_filter hy))
                refine ⟨d, cid, hdcur, hrun, ?_⟩
                dsimp only
                rw [hrec.2.1 m'.name hnx, hst', lookupDir_setDir_self, hdcur]
                rfl
              · obtain ⟨d0, cid0, hld, hrun0, hres⟩ := hrec.2.2.1 m' h he'
                have hne : m'.name ≠ m.name := by
                  intro hEq
                  exact hmname (hEq ▸ List.mem_map_of_mem (fun m => m.name) h)
                refine ⟨d0, cid0, ?_, hrun0, hres⟩
                rw [← hld, hst', lookupDir_setDir_ne stCur m.name m'.name d' hne]
            constructor
            · intro x
              rw [hrec.2.2.2.1 x, hsig' x, hsig x]
            · show (checkLoop ad opts now rest st').1.minions.map _ = _
              rw [hrec.2.2.2.2, hst', setDir_keys]
          · -- dependency signalled, but not COMPLETE: skip.
            have helB : eligibleB st0 m = false := by
              unfold eligibleB
              rw [hdep]
              dsimp only
              rw [hsf]
              simp [hc]
            have hrec := ih stCur hsig (fun m' hm' => hms m' (List.mem_cons_of_mem m hm'))
              hndr (fun m' hm' => helig m' (List.mem_cons_of_mem m hm'))
            have hloop : checkLoop ad opts now (m :: rest) stCur
                = checkLoop ad opts now rest stCur := by
              rw [checkLoop, hdep]
              dsimp only
              rw [if_pos hw, hsig dep, hsf]
              dsimp only
              rw [if_neg hc]
            rw [hloop, List.filter_cons, helB]
            simp only [Bool.false_eq_true, if_false]
            refine ⟨hrec.1, hrec.2.1, ?_, hrec.2.2.2.1, hrec.2.2.2.2⟩
            intro m' hm' he'
            rcases List.mem_cons.mp hm' with h | h
            · subst h; rw [helB] at he'; cases he'
            · exact hrec.2.2.1 m' h he'
      · -- not waiting, or falsy dependsOn: skip.
        have helB : eligibleB st0 m = false := by
          unfold eligibleB
          rw [hdep]
          dsimp only
          rcases not_and_or.mp hw with h | h
          · simp [h]
          · push_neg at h
            simp [h]
        have hrec := ih stCur hsig (fun m' hm' => hms m' (List.mem_cons_of_mem m hm'))
          hndr (fun m' hm' => helig m' (List.mem_cons_of_mem m hm'))
        have hloop : checkLoop ad opts now (m :: rest) stCur
            = checkLoop ad opts now rest stCur := by
          rw [checkLoop, hdep]
          dsimp only
          rw [if_neg hw]
        rw [hloop, List.filter_cons, helB]
        simp only [Bool.false_eq_true, if_false]
        refine ⟨hrec.1, hrec.2.1, ?_, hrec.2.2.2.1, hrec.2.2.2.2⟩
        intro m' hm' he'
        rcases List.mem_cons.mp hm' with h | h
        · subst h; rw [helB] at he'; cases he'
        · exact hrec.2.2.1 m' h he'

theorem lookupA_of_mem {α : Type} (l : List (String × α))
    (hnd : (l.map (·.1)).Nodup) (p : String × α) (hp : p ∈ l) :
    lookupA l p.1 = some p.2 := by
  induction l with
  | nil => cases hp
  | cons q rest ih =>
    rw [List.map_cons, List.nodup_cons] at hnd
    rcases List.mem_cons.mp hp with h | h
    · subst h; rw [lookupA_cons, if_pos rfl]
    · have hq : q.1 ≠ p.1 := by
        intro hEq
        exact hnd.1 (hEq ▸ List.mem_map_of_mem (·.1) h)
      rw [lookupA_cons, if_neg hq]
      exact ih hnd.2 h

theorem eq_of_mem_keyNodup {α : Type} (l : List (String × α))
    (hnd : (l.map (·.1)).Nodup) (p q : String × α) (hp : p ∈ l) (hq : q ∈ l)
    (h : p.1 = q.1) : p = q := by
  have h1 := lookupA_of_mem l hnd p hp
  have h2 := lookupA_of_mem l hnd q hq
  rw [h] at h1
  rw [h1] at h2
  obtain ⟨p1, p2⟩ := p
  obtain ⟨q1, q2⟩ := q
  simp only at h
  cases h
  cases Option.some_injective _ h2.symm
  rfl

/-- The directory names of the `list()` snapshot coincide with the directory
keys when each metadata record's `name` field matches its directory. -/
theorem list_names (st : HiveState)
    (hkey : ∀ p ∈ st.minions, p.2.meta.name = p.1) :
    (list st).map (fun m => m.name) = st.minions.map (fun p => p.1) := by
  unfold list
  rw [List.map_map]
  exact List.map_congr_left hkey

/-- C1: one scheduler pass returns exactly the snapshot records that are
`waiting` with a truthy dependency whose `STATUS` file trims to `COMPLETE`;
each of them ends the pass with status `running`; every other directory is
bit-for-bit untouched; and in particular a waiting worker whose dependency
has no terminal-signal file is never promoted and remains `waiting`.
Hypotheses: directory keys are unique and match the metadata `name` fields
(as every `Hive` operation maintains), and each eligible worker has a task
file and a succeeding adapter start (otherwise the pass aborts, see the C3
analysis). -/
theorem checkAndStartDependents_spec (ad : Adapter) (st : HiveState)
    (opts : StartOptions) (now : String)
    (hkey : ∀ p ∈ st.minions, p.2.meta.name = p.1)
    (hnd : (st.minions.map (fun p => p.1)).Nodup)
    (helig : ∀ p ∈ st.minions, eligibleB st p.2.meta = true →
      p.2.taskFile.isSome ∧ ∃ cid, ad.run p.1 = Except.ok cid) :
    (checkAndStartDependents ad st opts now).2
        = .ok (((list st).filter (fun m => eligibleB st m)).map
            (fun m => (m.name, m.dependsOn.getD ""))) ∧
    (∀ p ∈ st.minions, eligibleB st p.2.meta = true →
      ∃ d, lookupDir (checkAndStartDependents ad st opts now).1 p.1 = some d ∧
        d.meta.status = "running") ∧
    (∀ p ∈ st.minions, eligibleB st p.2.meta = false →
      lookupDir (checkAndStartDependents ad st opts now).1 p.1
        = lookupDir st p.1) ∧
    (∀ p ∈ st.minions, p.2.meta.status = "waiting" →
      (∀ dep, p.2.meta.dependsOn = some dep → readStatusFile st dep = none) →
      lookupDir (checkAndStartDependents ad st opts now).1 p.1 = some p.2 ∧
        p.2.meta.status = "waiting") := by
  have hnames := list_names st hkey
  have hndm : ((list st).map (fun m => m.name)).Nodup := by
    rw [hnames]; exact hnd
  have helig' : ∀ m ∈ list st, eligibleB st m = true →
      ∃ d, lookupDir st m.name = some d ∧ d.meta = m ∧ d.taskFile.isSome ∧
        ∃ cid, ad.run m.name = Except.ok cid := by
    intro m hm he
    rcases List.mem_map.mp hm with ⟨p, hp, hpm⟩
    subst hpm
    have hname := hkey p hp
    have hlook : lookupDir st p.2.meta.name = some p.2 := by
      rw [hname]; exact lookupA_of_mem st.minions hnd p hp
    obtain ⟨ht, cid, hrun⟩ := helig p hp he
    exact ⟨p.2, hlook, rfl, ht, cid, by rw [hname]; exact hrun⟩
  have hmain := checkLoop_spec ad opts now st (list st) st
    (fun x => rfl) (fun m _ => rfl) hndm helig'
  refine ⟨hmain.1, ?_, ?_, ?_⟩
  · intro p hp he
    have hm : p.2.meta ∈ list st := List.mem_map_of_mem (fun q => q.2.meta) hp
    obtain ⟨d, cid, hld, hrun, hd⟩ := hmain.2.2.1 p.2.meta hm he
    rw [hkey p hp] at hd
    exact ⟨startedDir d opts cid now, hd, rfl⟩
  · intro p hp he
    have hnot : p.1 ∉ ((list st).filter (fun m => eligibleB st m)).map
        (fun m => m.name) := by
      intro hmem
      rcases List.mem_map.mp hmem with ⟨m', hm', hm'name⟩
      have hm'list : m' ∈ list st := List.mem_of_mem_filter hm'
      have he' : eligibleB st m' = true := List.of_mem_filter hm'
      rcases List.mem_map.mp hm'list with ⟨q, hq, hqm⟩
      subst hqm
      have : p = q := eq_of_mem_keyNodup st.minions hnd p q hp hq
        (by rw [← hkey q hq]; exact hm'name.symm)
      subst this
      rw [he] at he'
      cases he'
    exact hmain.2.1 p.1 hnot
  · intro p hp hw hsig
    have he : eligibleB st p.2.meta = false := by
      unfold eligibleB
      cases hdep : p.2.meta.dependsOn with
      | none => simp
      | some dep => dsimp only; rw [hsig dep hdep]; simp
    have hframe := hmain.2.1 p.1 (by
      intro hmem
      rcases List.mem_map.mp hmem with ⟨m', hm', hm'name⟩
      have hm'list : m' ∈ list st := List.mem_of_mem_filter hm'
      have he' : eligibleB st m' = true := List.of_mem_filter hm'
      rcases List.mem_map.mp hm'list with ⟨q, hq, hqm⟩
      subst hqm
      have : p = q := eq_of_mem_keyNodup st.minions hnd p q hp hq
        (by rw [← hkey q hq]; exact hm'name.symm)
      subst this
      rw [he] at he'
      cases he')
    exact ⟨hframe.trans (lookupA_of_mem st.minions hnd p hp), hw⟩

/-- Witness for C1: the spec section 8 example — worker `a` whose terminal
signal reads `COMPLETE` and worker `b` waiting on `a` — promotes exactly `b`
in one pass. -/
theorem checkAndStartDependents_spec_witness :
    (checkAndStartDependents adOk
      { minions := [("a", mkDir "a" "pending" none (some "t") (some "COMPLETE")),
                    ("b", mkDir "b" "waiting" (some "a") (some "t") none)],
        network := [] } {} "T1").2
      = Except.ok [("b", "a")] := by
  have h := (checkAndStartDependents_spec adOk
      { minions := [("a", mkDir "a" "pending" none (some "t") (some "COMPLETE")),
                    ("b", mkDir "b" "waiting" (some "a") (some "t") none)],
        network := [] } {} "T1" (by decide) (by decide) ?_).1
  · rw [h]; decide
  · intro p hp he
    rcases List.mem_cons.mp hp with h1 | h1
    · subst h1; exact absurd he (by decide)
    · rcases List.mem_cons.mp h1 with h2 | h2
      · subst h2; exact ⟨by decide, "cid-1", rfl⟩
      · exact absurd h2 (List.not_mem_nil p)

theorem eligibleB_true_elim (st : HiveState) (m : Minion)
    (h : eligibleB st m = true) :
    m.status = "waiting" ∧ ∃ dep, m.dependsOn = some dep ∧ dep ≠ "" ∧
      ∃ content, readStatusFile st dep = some content ∧
        jsTrim content = "COMPLETE" := by
  unfold eligibleB at h
  cases hdep : m.dependsOn with
  | none => rw [hdep] at h; simp at h
  | some dep =>
    rw [hdep] at h
    dsimp only at h
    cases hsf : readStatusFile st dep with
    | none => rw [hsf] at h; simp at h
    | some content =>
      rw [hsf] at h
      simp only [Bool.and_eq_true, beq_iff_eq, bne_iff_ne, ne_eq] at h
      exact ⟨h.1, dep, rfl, h.2.1, content, hsf, h.2.2⟩

/-- The failing counterpart of `checkLoop_spec`: if every eligible snapshot
record before `k` starts successfully, `k` is eligible with an intact
workspace, and the adapter fails to launch `k`'s sandbox, then the pass
propagates exactly that adapter error, the records before `k` are already
promoted, every record not promoted before the failure is untouched, and the
records after `k` are never attempted. -/
theorem checkLoop_fail (ad : Adapter) (opts : StartOptions) (now : String)
    (st0 : HiveState) (k : Minion) (post : List Minion) (e : String) :
    ∀ (pre : List Minion) (stCur : HiveState),
    (∀ x, readStatusFile stCur x = readStatusFile st0 x) →
    (∀ m ∈ pre ++ k :: post, lookupDir stCur m.name = lookupDir st0 m.name) →
    ((pre ++ k :: post).map (fun m => m.name)).Nodup →
    (∀ m ∈ pre, eligibleB st0 m = true →
      ∃ d, lookupDir st0 m.name = some d ∧ d.meta = m ∧ d.taskFile.isSome ∧
        ∃ cid, ad.run m.name = Except.ok cid) →
    eligibleB st0 k = true →
    (∃ d, lookupDir st0 k.name = some d ∧ d.meta = k ∧ d.taskFile.isSome) →
    ad.run k.name = .error e →
    (checkLoop ad opts now (pre ++ k :: post) stCur).2
        = .error (.adapter e) ∧
    (∀ m ∈ pre, eligibleB st0 m = true →
      ∃ d cid, lookupDir stCur m.name = some d ∧
        ad.run m.name = Except.ok cid ∧
        lookupDir (checkLoop ad opts now (pre ++ k :: post) stCur).1 m.name
          = some (startedDir d opts cid now)) ∧
    (∀ x, x ∉ (pre.filter (fun m => eligibleB st0 m)).map (fun m => m.name) →
      lookupDir (checkLoop ad opts now (pre ++ k :: post) stCur).1 x
        = lookupDir stCur x) := by
  intro pre
  induction pre with
  | nil =>
    intro stCur hsig hms hnd hpre hk hkd hkrun
    obtain ⟨hkw, dep, hkdep, hkdne, content, hksf, hktrim⟩ :=
      eligibleB_true_elim st0 k hk
    obtain ⟨d, hd0, hdm, hdt⟩ := hkd
    have hdcur : lookupDir stCur k.name = some d :=
      (hms k (List.mem_cons_self k post)).trans hd0
    have hwait : d.meta.status = "pending" ∨ d.meta.status = "waiting" :=
      Or.inr (by rw [hdm]; exact hkw)
    have hstart := start_adapter_error ad stCur k.name opts now d e hdcur
      hwait hdt hkrun
    have hloop : checkLoop ad opts now ([] ++ k :: post) stCur
        = (stCur, .error (.adapter e)) := by
      show checkLoop ad opts now (k :: post) stCur = _
      rw [checkLoop, hkdep]
      dsimp only
      rw [if_pos ⟨hkw, hkdne⟩, hsig dep, hksf]
      dsimp only
      rw [if_pos hktrim, hstart]
    rw [hloop]
    exact ⟨rfl, fun m hm => absurd hm (List.not_mem_nil m), fun x _ => rfl⟩
  | cons m rest ih =>
    intro stCur hsig hms hnd hpre hk hkd hkrun
    have hnd' := hnd
    rw [List.cons_append, List.map_cons, List.nodup_cons] at hnd'
    obtain ⟨hmname, hndr⟩ := hnd'
    by_cases helB : eligibleB st0 m = true
    · -- m is promoted first, then the failing tail aborts the rest.
      obtain ⟨hmw, dep, hmdep, hmdne, content, hmsf, hmtrim⟩ :=
        eligibleB_true_elim st0 m helB
      obtain ⟨d, hd0, hdm, hdt, cid, hrun⟩ :=
        hpre m (List.mem_cons_self m rest) helB
      have hdcur : lookupDir stCur m.name = some d :=
        (hms m (by rw [List.cons_append]; exact List.mem_cons_self m _)).trans hd0
      have hwait : d.meta.status = "pending" ∨ d.meta.status = "waiting" :=
        Or.inr (by rw [hdm]; exact hmw)
      have hstart := start_ok ad stCur m.name opts now d cid hdcur hwait hdt hrun
      set d' : MinionDir := startedDir d opts cid now with hd'
      set st' := setDir stCur m.name d' with hst'
      have hsig' : ∀ x, readStatusFile st' x = readStatusFile st0 x :=
        fun x => (readStatusFile_setDir stCur m.name d' d hdcur rfl x).trans (hsig x)
      have hms' : ∀ m' ∈ rest ++ k :: post,
          lookupDir st' m'.name = lookupDir st0 m'.name := by
        intro m' hm'
        have hne : m'.name ≠ m.name := by
          intro hEq
          exact hmname (hEq ▸ List.mem_map_of_mem (fun m => m.name) hm')
        rw [hst', lookupDir_setDir_ne stCur m.name m'.name d' hne]
        exact hms m' (by rw [List.cons_append]; exact List.mem_cons_of_mem m hm')
      have hrec := ih st' hsig' hms' hndr
        (fun m' hm' => hpre m' (List.mem_cons_of_mem m hm')) hk hkd hkrun
      have hloop : checkLoop ad opts now ((m :: rest) ++ k :: post) stCur
          = ((checkLoop ad opts now (rest ++ k :: post) st').1,
             match (checkLoop ad opts now (rest ++ k :: post) st').2 with
             | .error e => .error e
             | .ok started => .ok ((m.name, dep) :: started)) := by
        rw [List.cons_append, checkLoop, hmdep]
        dsimp only
        rw [if_pos ⟨hmw, hmdne⟩, hsig dep, hmsf]
        dsimp only
        rw [if_pos hmtrim, hstart]
        dsimp only
        rcases hrc : checkLoop ad opts now (rest ++ k :: post) st' with ⟨stFin, r⟩
        cases r with
        | error e => rfl
        | ok started => rfl
      rw [hloop]
      constructor
      · rw [hrec.1]
      constructor
      · intro m' hm' he'
        rcases List.mem_cons.mp hm' with h | h
        · subst h
          have hnx : m'.name ∉ (rest.filter (fun m => eligibleB st0 m)).map
              (fun m => m.name) := by
            intro hmem
            rcases List.mem_map.mp hmem with ⟨y, hy, hyname⟩
            exact hmname (hyname ▸ List.mem_map_of_mem (fun m => m.name)
              (List.mem_append_left _ (List.mem_of_mem_filter hy)))
          refine ⟨d, cid, hdcur, hrun, ?_⟩
          dsimp only
          rw [hrec.2.2 m'.name hnx, hst', lookupDir_setDir_self, hdcur]
          rfl
        · obtain ⟨d0, cid0, hld, hrun0, hres⟩ := hrec.2.1 m' h he'
          have hne : m'.name ≠ m.name := by
            intro hEq
            exact hmname (hEq ▸ List.mem_map_of_mem (fun m => m.name)
              (List.mem_append_left _ h))
          refine ⟨d0, cid0, ?_, hrun0, hres⟩
          rw [← hld, hst', lookupDir_setDir_ne stCur m.name m'.name d' hne]
      · intro x hx
        have hx1 : x ≠ m.name := by
          intro hEq
          apply hx
          rw [List.filter_cons, helB]
          simp [hEq]
        have hx2 : x ∉ (rest.filter (fun m => eligibleB st0 m)).map
            (fun m => m.name) := by
          intro hmem
          apply hx
          rw [List.filter_cons, helB]
          simpa using Or.inr hmem
        dsimp only
        rw [hrec.2.2 x hx2, hst', lookupDir_setDir_ne stCur m.name x d' hx1]
    · -- m is skipped; the failure happens further along.
      have helBf : eligibleB st0 m = false := by
        cases hB : eligibleB st0 m with
        | false => rfl
        | true => exact absurd hB helB
      have hrec := ih stCur hsig
        (fun m' hm' => hms m' (by rw [List.cons_append]; exact List.mem_cons_of_mem m hm'))
        hndr (fun m' hm' => hpre m' (List.mem_cons_of_mem m hm')) hk hkd hkrun
      have hloop : checkLoop ad opts now ((m :: rest) ++ k :: post) stCur
          = checkLoop ad opts now (rest ++ k :: post) stCur := by
        rw [List.cons_append]
        cases hdep : m.dependsOn with
        | none => rw [checkLoop, hdep]
        | some dep =>
          rw [checkLoop, hdep]
          dsimp only
          by_cases hw : m.status = "waiting" ∧ dep ≠ ""
          · rw [if_pos hw]
            cases hsf : readStatusFile stCur dep with
            | none => rfl
            | some content =>
              dsimp only
              by_cases hc : jsTrim content = "COMPLETE"
              · exfalso
                apply helB
                unfold eligibleB
                rw [hdep]
                dsimp only
                rw [← hsig dep, hsf]
                simp [hw.1, hw.2, hc]
              · rw [if_neg hc]
          · rw [if_neg hw]
      rw [hloop]
      refine ⟨hrec.1, ?_, ?_⟩
      · intro m' hm' he'
        rcases List.mem_cons.mp hm' with h | h
        · subst h; rw [helBf] at he'; cases he'
        · exact hrec.2.1 m' h he'
      · intro x hx
        apply hrec.2.2 x
        intro hmem
        apply hx
        rw [List.filter_cons, helBf]
        simpa using hmem

/-- Counterexample to C3 as stated: two workers `w1` and `w2` both wait on
the completed worker `d`; the adapter fails to launch `w1`'s sandbox.  The
pass aborts with that adapter error — even though `w2` is eligible, it is
never attempted and its directory is untouched, still `waiting`.  (`start`
is called with no try/catch inside the loop of src/index.js lines
1372-1390, so the first throw propagates out of the pass.) -/
theorem scheduler_abort_cex :
    (checkAndStartDependents
      (mkAdapter
        (fun n => if n == "w1" then Except.error "docker: failed to launch"
                  else Except.ok "cid-1")
        (fun _ => Except.ok "running"))
      { minions := [("d", mkDir "d" "killed" none (some "t") (some "COMPLETE")),
                    ("w1", mkDir "w1" "waiting" (some "d") (some "t") none),
                    ("w2", mkDir "w2" "waiting" (some "d") (some "t") none)],
        network := [] } {} "T1").2
      = Except.error (Err.adapter "docker: failed to launch") ∧
    eligibleB
      { minions := [("d", mkDir "d" "killed" none (some "t") (some "COMPLETE")),
                    ("w1", mkDir "w1" "waiting" (some "d") (some "t") none),
                    ("w2", mkDir "w2" "waiting" (some "d") (some "t") none)],
        network := [] }
      (mkDir "w2" "waiting" (some "d") (some "t") none).meta = true ∧
    lookupDir (checkAndStartDependents
      (mkAdapter
        (fun n => if n == "w1" then Except.error "docker: failed to launch"
                  else Except.ok "cid-1")
        (fun _ => Except.ok "running"))
      { minions := [("d", mkDir "d" "killed" none (some "t") (some "COMPLETE")),
                    ("w1", mkDir "w1" "waiting" (some "d") (some "t") none),
                    ("w2", mkDir "w2" "waiting" (some "d") (some "t") none)],
        network := [] } {} "T1").1 "w2"
      = some (mkDir "w2" "waiting" (some "d") (some "t") none) := by
  refine ⟨?_, by decide, ?_⟩ <;> decide

/-- C3 amended: a failure while starting one eligible dependent ABORTS the
scheduler pass — the error propagates to the caller as the pass's result;
eligible workers earlier in the snapshot were already promoted and stay
promoted, but workers after the failing one are not attempted in that pass
and their directories are untouched. -/
theorem checkAndStartDependents_abort_spec (ad : Adapter) (st : HiveState)
    (opts : StartOptions) (now : String) (e : String)
    (preE postE : List (String × MinionDir)) (kn : String) (kd : MinionDir)
    (hsplit : st.minions = preE ++ (kn, kd) :: postE)
    (hkey : ∀ p ∈ st.minions, p.2.meta.name = p.1)
    (hnd : (st.minions.map (fun p => p.1)).Nodup)
    (hpre : ∀ p ∈ preE, eligibleB st p.2.meta = true →
      p.2.taskFile.isSome ∧ ∃ cid, ad.run p.1 = Except.ok cid)
    (hk : eligibleB st kd.meta = true)
    (hkt : kd.taskFile.isSome)
    (hkrun : ad.run kn = .error e) :
    (checkAndStartDependents ad st opts now).2 = .error (.adapter e) ∧
    (∀ p ∈ postE, lookupDir (checkAndStartDependents ad st opts now).1 p.1
        = lookupDir st p.1) ∧
    (∀ p ∈ preE, eligibleB st p.2.meta = true →
      ∃ d, lookupDir (checkAndStartDependents ad st opts now).1 p.1 = some d ∧
        d.meta.status = "running") := by
  have hkmem : (kn, kd) ∈ st.minions := by
    rw [hsplit]
    exact List.mem_append_right _ (List.mem_cons_self _ _)
  have hkne : kd.meta.name = kn := hkey (kn, kd) hkmem
  have hlist : list st
      = preE.map (fun p => p.2.meta) ++ kd.meta :: postE.map (fun p => p.2.meta) := by
    unfold list
    rw [hsplit, List.map_append, List.map_cons]
  have hcasd : checkAndStartDependents ad st opts now
      = checkLoop ad opts now
          (preE.map (fun p => p.2.meta) ++ kd.meta :: postE.map (fun p => p.2.meta))
          st := by
    unfold checkAndStartDependents
    rw [hlist]
  have hdisj := hnd
  rw [hsplit, List.map_append, List.nodup_append] at hdisj
  have hndm : (((preE.map (fun p => p.2.meta)
      ++ kd.meta :: postE.map (fun p => p.2.meta)).map
        (fun m => m.name))).Nodup := by
    have : ((preE.map (fun p => p.2.meta)
        ++ kd.meta :: postE.map (fun p => p.2.meta)).map (fun m => m.name))
        = st.minions.map (fun p => p.1) := by
      rw [← hlist]
      have h1 : (list st).map (fun m => m.name)
          = st.minions.map (fun p => p.2.meta.name) := by
        unfold list; rw [List.map_map]; rfl
      rw [h1]
      exact List.map_congr_left hkey
    rw [this]
    exact hnd
  have hpre' : ∀ m ∈ preE.map (fun p => p.2.meta), eligibleB st m = true →
      ∃ d, lookupDir st m.name = some d ∧ d.meta = m ∧ d.taskFile.isSome ∧
        ∃ cid, ad.run m.name = Except.ok cid := by
    intro m hm he
    rcases List.mem_map.mp hm with ⟨q, hq, hqm⟩
    subst hqm
    have hqname : q.2.meta.name = q.1 :=
      hkey q (by rw [hsplit]; exact List.mem_append_left _ hq)
    obtain ⟨ht, cid, hrun⟩ := hpre q hq he
    refine ⟨q.2, ?_, rfl, ht, cid, by rw [hqname]; exact hrun⟩
    rw [hqname]
    exact lookupA_of_mem st.minions hnd q
      (by rw [hsplit]; exact List.mem_append_left _ hq)
  have hkd' : ∃ d, lookupDir st kd.meta.name = some d ∧ d.meta = kd.meta ∧
      d.taskFile.isSome := by
    refine ⟨kd, ?_, rfl, hkt⟩
    rw [hkne]
    exact lookupA_of_mem st.minions hnd (kn, kd) hkmem
  have hmain := checkLoop_fail ad opts now st kd.meta
    (postE.map (fun p => p.2.meta)) e (preE.map (fun p => p.2.meta)) st
    (fun x => rfl) (fun m _ => rfl) hndm hpre' hk hkd'
    (by rw [hkne]; exact hkrun)
  rw [hcasd]
  refine ⟨hmain.1, ?_, ?_⟩
  · intro p hp
    apply hmain.2.2
    intro hmem
    rcases List.mem_map.mp hmem with ⟨m', hm', hm'name⟩
    rcases List.mem_map.mp (List.mem_of_mem_filter hm') with ⟨q, hq, hqm⟩
    subst hqm
    have hqname : q.2.meta.name = q.1 :=
      hkey q (by rw [hsplit]; exact List.mem_append_left _ hq)
    rw [hqname] at hm'name
    exact hdisj.2.2 (List.mem_map_of_mem (fun p => p.1) hq)
      (hm'name ▸ List.mem_map_of_mem (fun p => p.1)
        (List.mem_cons_of_mem (kn, kd) hp))
  · intro p hp he
    have hm : p.2.meta ∈ preE.map (fun p => p.2.meta) :=
      List.mem_map_of_mem (fun q => q.2.meta) hp
    obtain ⟨d, cid, hld, hrun, hd⟩ := hmain.2.1 p.2.meta hm he
    have hpname : p.2.meta.name = p.1 :=
      hkey p (by rw [hsplit]; exact List.mem_append_left _ hp)
    rw [hpname] at hd
    exact ⟨startedDir d opts cid now, hd, rfl⟩

/-- Witness for the amended C3, applying
`checkAndStartDependents_abort_spec` to the concrete two-dependent state:
the pass errors and the second eligible worker is untouched. -/
theorem checkAndStartDependents_abort_spec_witness :
    (checkAndStartDependents
      (mkAdapter
        (fun n => if n == "w1" then Except.error "docker: failed to launch"
                  else Except.ok "cid-1")
        (fun _ => Except.ok "running"))
      { minions := [("d", mkDir "d" "killed" none (some "t") (some "COMPLETE")),
                    ("w1", mkDir "w1" "waiting" (some "d") (some "t") none),
                    ("w2", mkDir "w2" "waiting" (some "d") (some "t") none)],
        network := [] } {} "T1").2
      = Except.error (Err.adapter "docker: failed to launch") := by
  have h := checkAndStartDependents_abort_spec
    (mkAdapter
      (fun n => if n == "w1" then Except.error "docker: failed to launch"
                else Except.ok "cid-1")
      (fun _ => Except.ok "running"))
    { minions := [("d", mkDir "d" "killed" none (some "t") (some "COMPLETE")),
                  ("w1", mkDir "w1" "waiting" (some "d") (some "t") none),
                  ("w2", mkDir "w2" "waiting" (some "d") (some "t") none)],
      network := [] } {} "T1" "docker: failed to launch"
    [("d", mkDir "d" "killed" none (some "t") (some "COMPLETE"))]
    [("w2", mkDir "w2" "waiting" (some "d") (some "t") none)]
    "w1" (mkDir "w1" "waiting" (some "d") (some "t") none)
    rfl (by decide) (by decide)
    (by intro p hp he
        rcases List.mem_cons.mp hp with h1 | h1
        · subst h1; exact absurd he (by decide)
        · exact absurd h1 (List.not_mem_nil p))
    (by decide) (by decide) rfl
  exact h.1

/-- An association list with given, duplicate-free keys is determined by its
lookups: it equals the key list paired with what lookup returns. -/
theorem assoc_reconstruct {α : Type} :
    ∀ (l l' : List (String × α)),
    l'.map (fun p => p.1) = l.map (fun p => p.1) →
    (l.map (fun p => p.1)).Nodup →
    l' = l.map (fun p => (p.1, (lookupA l' p.1).getD p.2)) := by
  intro l
  induction l with
  | nil =>
    intro l' hk _
    cases l' with
    | nil => rfl
    | cons q r => simp at hk
  | cons p rest ih =>
    intro l' hk hnd
    cases l' with
    | nil => simp at hk
    | cons q r =>
      rw [List.map_cons, List.map_cons] at hk
      injection hk with h1 h2
      rw [List.map_cons, List.nodup_cons] at hnd
      have hq : lookupA (q :: r) p.1 = some q.2 := by
        rw [lookupA_cons, if_pos h1]
      have hr := ih r h2 hnd.2
      rw [List.map_cons, hq]
      simp only [Option.getD_some]
      have hqe : q = (p.1, q.2) := by
        obtain ⟨q1, q2⟩ := q
        simp only at h1
        rw [h1]
      have htail : rest.map (fun s => (s.1, (lookupA (q :: r) s.1).getD s.2))
          = rest.map (fun s => (s.1, (lookupA r s.1).getD s.2)) := by
        apply List.map_congr_left
        intro s hs
        have hne : ¬ q.1 = s.1 := by
          rw [h1]
          intro hEq
          exact hnd.1 (hEq ▸ List.mem_map_of_mem (fun p => p.1) hs)
        rw [lookupA_cons, if_neg hne]
      rw [htail, ← hr, ← hqe]

/-- C2: in a dependency chain A→B→C where only A's terminal signal reads
`COMPLETE`, one `checkAndStartDependents` pass promotes exactly B (one
dependency hop per pass); C stays `waiting` after that pass; and after B's
own terminal signal is written as `COMPLETE`, a subsequent pass promotes
exactly C, which then becomes `running`. -/
theorem chain_one_hop_spec (ad : Adapter) (opts opts2 : StartOptions)
    (now now2 : String) (a b c sA sB : String) (dA dB dC : MinionDir)
    (st : HiveState)
    (hst : st.minions = [(a, dA), (b, dB), (c, dC)])
    (hab : a ≠ b) (hac : a ≠ c) (hbc : b ≠ c) (ha0 : a ≠ "") (hb0 : b ≠ "")
    (hAname : dA.meta.name = a) (hBname : dB.meta.name = b)
    (hCname : dC.meta.name = c)
    (hAdep : dA.meta.dependsOn = none)
    (hBstat : dB.meta.status = "waiting") (hBdep : dB.meta.dependsOn = some a)
    (hBtask : dB.taskFile.isSome) (hBsig : dB.statusFile = none)
    (hCstat : dC.meta.status = "waiting") (hCdep : dC.meta.dependsOn = some b)
    (hCtask : dC.taskFile.isSome)
    (hAsig : dA.statusFile = some sA) (hsA : jsTrim sA = "COMPLETE")
    (hsB : jsTrim sB = "COMPLETE")
    (cidB cidC : String) (hrunB : ad.run b = .ok cidB)
    (hrunC : ad.run c = .ok cidC) :
    (checkAndStartDependents ad st opts now).2 = .ok [(b, a)] ∧
    (∃ d, lookupDir (checkAndStartDependents ad st opts now).1 b = some d ∧
      d.meta.status = "running") ∧
    (∃ d, lookupDir (checkAndStartDependents ad st opts now).1 c = some d ∧
      d.meta.status = "waiting") ∧
    (checkAndStartDependents ad
        (writeStatusFile (checkAndStartDependents ad st opts now).1 b sB)
        opts2 now2).2 = .ok [(c, b)] ∧
    (∃ d, lookupDir (checkAndStartDependents ad
        (writeStatusFile (checkAndStartDependents ad st opts now).1 b sB)
        opts2 now2).1 c = some d ∧ d.meta.status = "running") := by
  -- Lookups in the initial state.
  have hlA : lookupDir st a = some dA := by
    rw [lookupDir_eq_lookupA, hst, lookupA_cons, if_pos rfl]
  have hlB : lookupDir st b = some dB := by
    rw [lookupDir_eq_lookupA, hst, lookupA_cons, if_neg hab, lookupA_cons,
      if_pos rfl]
  have hlC : lookupDir st c = some dC := by
    rw [lookupDir_eq_lookupA, hst, lookupA_cons, if_neg hac, lookupA_cons,
      if_neg hbc, lookupA_cons, if_pos rfl]
  have hsfA : readStatusFile st a = some sA := by
    unfold readStatusFile; rw [hlA]; exact hAsig
  have hsfB : readStatusFile st b = none := by
    unfold readStatusFile; rw [hlB]; exact hBsig
  -- Eligibility of the three snapshot records in the initial state.
  have eA : eligibleB st dA.meta = false := by
    unfold eligibleB; rw [hAdep]; simp
  have eB : eligibleB st dB.meta = true := by
    unfold eligibleB; rw [hBdep]; dsimp only; rw [hsfA]
    simp [hBstat, ha0, hsA]
  have eC : eligibleB st dC.meta = false := by
    unfold eligibleB; rw [hCdep]; dsimp only; rw [hsfB]; simp
  have hlist : list st = [dA.meta, dB.meta, dC.meta] := by
    unfold list; rw [hst]; rfl
  have hnames : (list st).map (fun m => m.name) = [a, b, c] := by
    rw [hlist]; simp [hAname, hBname, hCname]
  have hndm : ((list st).map (fun m => m.name)).Nodup := by
    rw [hnames]; simp [hab, hac, hbc]
  have helig' : ∀ m ∈ list st, eligibleB st m = true →
      ∃ d, lookupDir st m.name = some d ∧ d.meta = m ∧ d.taskFile.isSome ∧
        ∃ cid, ad.run m.name = Except.ok cid := by
    rw [hlist]
    intro m hm he
    rcases List.mem_cons.mp hm with h | h
    · subst h; rw [eA] at he; cases he
    rcases List.mem_cons.mp h with h | h
    · subst h
      rw [hBname]
      exact ⟨dB, hlB, rfl, hBtask, cidB, hrunB⟩
    rcases List.mem_cons.mp h with h | h
    · subst h; rw [eC] at he; cases he
    · exact absurd h (List.not_mem_nil m)
  have hmain := checkLoop_spec ad opts now st (list st) st
    (fun x => rfl) (fun m _ => rfl) hndm helig'
  have hfil : (list st).filter (fun m => eligibleB st m) = [dB.meta] := by
    rw [hlist]
    rw [List.filter_cons, eA, List.filter_cons, eB, List.filter_cons, eC]
    simp
  have hres1 : (checkAndStartDependents ad st opts now).2 = .ok [(b, a)] := by
    have h := hmain.1
    rw [hfil] at h
    rw [List.map_cons, hBname, hBdep] at h
    exact h
  have hBrun := hmain.2.2.1 dB.meta (by rw [hlist]; simp) eB
  obtain ⟨d1, cid1, hld1, hrun1, hres1B⟩ := hBrun
  rw [hBname] at hld1 hrun1 hres1B
  have hd1 : d1 = dB := by
    rw [hlB] at hld1; exact (Option.some_injective _ hld1).symm
  have hcid1 : cid1 = cidB := by
    rw [hrunB] at hrun1
    cases hrun1; rfl
  rw [hd1, hcid1] at hres1B
  have hCfr : lookupDir (checkAndStartDependents ad st opts now).1 c
      = lookupDir st c := by
    apply hmain.2.1
    rw [hfil, List.map_cons, hBname]
    simp [Ne.symm hbc]
  have hCkeep : lookupDir (checkAndStartDependents ad st opts now).1 c
      = some dC := by rw [hCfr, hlC]
  refine ⟨hres1, ⟨startedDir dB opts cidB now, hres1B, rfl⟩,
    ⟨dC, hCkeep, hCstat⟩, ?_⟩
  -- Reconstruct the post-pass state and run the second pass.
  have hkeys1 : (checkAndStartDependents ad st opts now).1.minions.map
      (fun p => p.1) = [a, b, c] := by
    have h := hmain.2.2.2.2
    rw [hst] at h
    exact h
  have hndk : (st.minions.map (fun p => p.1)).Nodup := by
    rw [hst]; simp [hab, hac, hbc]
  have hrecon := assoc_reconstruct st.minions
    (checkAndStartDependents ad st opts now).1.minions
    (by rw [hkeys1, hst]; rfl) hndk
  have hAfr : lookupDir (checkAndStartDependents ad st opts now).1 a
      = some dA :=
    (hmain.2.1 a (by rw [hfil, List.map_cons, hBname]; simp [hab])).trans hlA
  set st1 := (checkAndStartDependents ad st opts now).1 with hst1
  set dB1 := startedDir dB opts cidB now with hdB1
  have hmins1 : st1.minions = [(a, dA), (b, dB1), (c, dC)] := by
    rw [hrecon, hst]
    rw [List.map_cons, List.map_cons, List.map_cons, List.map_nil]
    have e1 : lookupA st1.minions a = some dA := hAfr
    have e2 : lookupA st1.minions b = some dB1 := hres1B
    have e3 : lookupA st1.minions c = some dC := hCkeep
    rw [e1, e2, e3]
    rfl
  -- The externally written COMPLETE signal for B.
  have hlB1 : lookupDir st1 b = some dB1 := hres1B
  set dB2 : MinionDir := { dB1 with statusFile := some sB } with hdB2
  have hst2eq : writeStatusFile st1 b sB = setDir st1 b dB2 := by
    unfold writeStatusFile
    rw [hlB1]
  set st2 := writeStatusFile st1 b sB with hst2
  have hmins2 : st2.minions = [(a, dA), (b, dB2), (c, dC)] := by
    rw [hst2eq]
    show (st1.minions.map fun p => if p.1 == b then (p.1, dB2) else p) = _
    rw [hmins1]
    simp [hab, hbc, Ne.symm hab, Ne.symm hbc]
  -- Lookups and eligibility in the post-signal state.
  have hlA2 : lookupDir st2 a = some dA := by
    rw [lookupDir_eq_lookupA, hmins2, lookupA_cons, if_pos rfl]
  have hlB2 : lookupDir st2 b = some dB2 := by
    rw [lookupDir_eq_lookupA, hmins2, lookupA_cons, if_neg hab, lookupA_cons,
      if_pos rfl]
  have hlC2 : lookupDir st2 c = some dC := by
    rw [lookupDir_eq_lookupA, hmins2, lookupA_cons, if_neg hac, lookupA_cons,
      if_neg hbc, lookupA_cons, if_pos rfl]
  have hsfB2 : readStatusFile st2 b = some sB := by
    unfold readStatusFile; rw [hlB2]; rfl
  have hB1name : dB1.meta.name = b := by
    rw [hdB1]; simp only [startedDir]; exact hBname
  have hB2name : dB2.meta.name = b := by
    rw [hdB2]; dsimp only; rw [hdB1]; simp only [startedDir]; exact hBname
  have hB2stat : dB2.meta.status = "running" := by
    rw [hdB2]; dsimp only; rw [hdB1]; simp only [startedDir]
  have eA2 : eligibleB st2 dA.meta = false := by
    unfold eligibleB; rw [hAdep]; simp
  have eB2 : eligibleB st2 dB2.meta = false := by
    unfold eligibleB
    rw [hB2stat]
    simp
  have eC2 : eligibleB st2 dC.meta = true := by
    unfold eligibleB; rw [hCdep]; dsimp only; rw [hsfB2]
    simp [hCstat, hb0, hsB]
  have hlist2 : list st2 = [dA.meta, dB2.meta, dC.meta] := by
    unfold list; rw [hmins2]; rfl
  have hnames2 : (list st2).map (fun m => m.name) = [a, b, c] := by
    rw [hlist2]
    simp [hAname, hB1name, hB2name, hCname]
  have hndm2 : ((list st2).map (fun m => m.name)).Nodup := by
    rw [hnames2]; simp [hab, hac, hbc]
  have helig2 : ∀ m ∈ list st2, eligibleB st2 m = true →
      ∃ d, lookupDir st2 m.name = some d ∧ d.meta = m ∧ d.taskFile.isSome ∧
        ∃ cid, ad.run m.name = Except.ok cid := by
    rw [hlist2]
    intro m hm he
    rcases List.mem_cons.mp hm with h | h
    · subst h; rw [eA2] at he; cases he
    rcases List.mem_cons.mp h with h | h
    · subst h; rw [eB2] at he; cases he
    rcases List.mem_cons.mp h with h | h
    · subst h
      rw [hCname]
      exact ⟨dC, hlC2, rfl, hCtask, cidC, hrunC⟩
    · exact absurd h (List.not_mem_nil m)
  have hmain2 := checkLoop_spec ad opts2 now2 st2 (list st2) st2
    (fun x => rfl) (fun m _ => rfl) hndm2 helig2
  have hfil2 : (list st2).filter (fun m => eligibleB st2 m) = [dC.meta] := by
    rw [hlist2]
    rw [List.filter_cons, eA2, List.filter_cons, eB2, List.filter_cons, eC2]
    simp
  have hres2 : (checkAndStartDependents ad st2 opts2 now2).2
      = .ok [(c, b)] := by
    have h := hmain2.1
    rw [hfil2, List.map_cons, hCname, hCdep] at h
    exact h
  have hCrun := hmain2.2.2.1 dC.meta (by rw [hlist2]; simp) eC2
  obtain ⟨d2, cid2, hld2, hrun2, hres2C⟩ := hCrun
  rw [hCname] at hres2C
  exact ⟨hres2, ⟨startedDir d2 opts2 cid2 now2, hres2C, rfl⟩⟩

/-- Witness for C2, applying `chain_one_hop_spec` to a concrete three-worker
chain under an always-succeeding adapter. -/
theorem chain_one_hop_spec_witness :
    (checkAndStartDependents adOk
      { minions := [("A", mkDir "A" "pending" none (some "t") (some "COMPLETE")),
                    ("B", mkDir "B" "waiting" (some "A") (some "t") none),
                    ("C", mkDir "C" "waiting" (some "B") (some "t") none)],
        network := [] } {} "T1").2 = Except.ok [("B", "A")] ∧
    (checkAndStartDependents adOk
      (writeStatusFile
        (checkAndStartDependents adOk
          { minions := [("A", mkDir "A" "pending" none (some "t") (some "COMPLETE")),
                        ("B", mkDir "B" "waiting" (some "A") (some "t") none),
                        ("C", mkDir "C" "waiting" (some "B") (some "t") none)],
            network := [] } {} "T1").1 "B" "COMPLETE") {} "T2").2
      = Except.ok [("C", "B")] := by
  have h := chain_one_hop_spec adOk {} {} "T1" "T2" "A" "B" "C"
    "COMPLETE" "COMPLETE"
    (mkDir "A" "pending" none (some "t") (some "COMPLETE"))
    (mkDir "B" "waiting" (some "A") (some "t") none)
    (mkDir "C" "waiting" (some "B") (some "t") none)
    { minions := [("A", mkDir "A" "pending" none (some "t") (some "COMPLETE")),
                  ("B", mkDir "B" "waiting" (some "A") (some "t") none),
                  ("C", mkDir "C" "waiting" (some "B") (some "t") none)],
      network := [] }
    rfl (by decide) (by decide) (by decide) (by decide) (by decide)
    rfl rfl rfl rfl rfl rfl (by decide) rfl rfl rfl (by decide)
    rfl (by decide) (by decide) "cid-1" "cid-1" rfl rfl
  exact ⟨h.1, h.2.2.2.1⟩

/-! ### Name validation and `spawn` -/

theorem validateName_ok_iff (name : String) :
    validateName name = .ok () ↔
      (matchesNamePattern name = true ∧ name.length ≤ 128) := by
  unfold validateName
  by_cases h0 : name = ""
  · subst h0
    have hp : matchesNamePattern "" = false := rfl
    simp [hp]
  · by_cases h1 : name.length > 128
    · have h1' : ¬ name.length ≤ 128 := by omega
      simp [h0, h1, h1']
    · have h1' : name.length ≤ 128 := by omega
      by_cases h2 : matchesNamePattern name
      · simp [h0, h1, h2, h1']
      · simp [h0, h1, h2]

theorem validateName_invalid (name : String)
    (h : ¬ (matchesNamePattern name = true ∧ name.length ≤ 128)) :
    ∃ e, validateName name = .error e ∧ isInvalidNameErr e = true := by
  unfold validateName
  by_cases h0 : name = ""
  · exact ⟨.nameRequired, by simp [h0], rfl⟩
  · by_cases h1 : name.length > 128
    · exact ⟨.nameTooLong name, by simp [h0, h1], rfl⟩
    · have h2 : ¬ matchesNamePattern name = true := by
        intro h2
        exact h ⟨h2, by omega⟩
      exact ⟨.invalidName name, by simp [h0, h1, h2], rfl⟩

theorem spawn_validate_error (ad : Adapter) (st : HiveState)
    (name task : String) (opts : StartOptions) (now : String) (e : Err)
    (h : validateName name = .error e) :
    spawn ad st name task opts now = (st, .error e) := by
  unfold spawn; rw [h]

theorem rename_validate_error (ad : Adapter) (st : HiveState)
    (oldName newName : String) (now : String) (e : Err)
    (h : validateName newName = .error e) :
    rename ad st oldName newName now = (st, .error e) := by
  unfold rename; rw [h]

theorem clone_validate_error (st : HiveState) (sourceName newName : String)
    (opts : CloneOptions) (now : String) (e : Err)
    (h : validateName newName = .error e) :
    clone st sourceName newName opts now = (st, .error e) := by
  unfold clone; rw [h]

theorem spawn_already_exists (ad : Adapter) (st : HiveState)
    (name task : String) (opts : StartOptions) (now : String)
    (hv : validateName name = .ok ())
    (h : lookupDir st name ≠ none) :
    spawn ad st name task opts now = (st, .error (.alreadyExists name)) := by
  unfold spawn; rw [hv]; dsimp only; simp only [if_pos h]

theorem spawn_fresh_ok (ad : Adapter) (st : HiveState)
    (name task : String) (opts : StartOptions) (now : String) (cid : String)
    (hv : validateName name = .ok ())
    (h : lookupDir st name = none)
    (hr : ad.run name = .ok cid) :
    (spawn ad st name task opts now).2 = .ok cid ∧
    (lookupDir (spawn ad st name task opts now).1 name) ≠ none := by
  unfold spawn
  rw [hv]
  dsimp only
  rw [if_neg (by rw [h]; exact fun hh => hh rfl)]
  rw [hr]
  dsimp only
  refine ⟨rfl, ?_⟩
  rw [lookupDir_setDir_self, lookupDir_addDir, h]
  simp

/-- C6: `spawn` fails with one of the `InvalidName`-family errors exactly
when the target name violates `[A-Za-z0-9][A-Za-z0-9_.-]*` or exceeds 128
characters — and `rename` and `clone` validate their target names by the
same rule; a valid fresh name under a succeeding adapter spawns
successfully; a name whose workspace directory already exists fails with
the already-exists error; hence a second `spawn` of the same name always
fails with the already-exists error. -/
theorem spawn_name_spec :
    (∀ name, validateName name = .ok () ↔
      (matchesNamePattern name = true ∧ name.length ≤ 128)) ∧
    (∀ ad st name task opts now,
      ¬ (matchesNamePattern name = true ∧ name.length ≤ 128) →
      ∃ e, spawn ad st name task opts now = (st, .error e) ∧
        isInvalidNameErr e = true) ∧
    (∀ ad st oldName newName now,
      ¬ (matchesNamePattern newName = true ∧ newName.length ≤ 128) →
      ∃ e, rename ad st oldName newName now = (st, .error e) ∧
        isInvalidNameErr e = true) ∧
    (∀ st sourceName newName opts now,
      ¬ (matchesNamePattern newName = true ∧ newName.length ≤ 128) →
      ∃ e, clone st sourceName newName opts now = (st, .error e) ∧
        isInvalidNameErr e = true) ∧
    (∀ ad st name task opts now,
      (matchesNamePattern name = true ∧ name.length ≤ 128) →
      lookupDir st name ≠ none →
      spawn ad st name task opts now = (st, .error (.alreadyExists name))) ∧
    (∀ ad st name task opts now cid,
      (matchesNamePattern name = true ∧ name.length ≤ 128) →
      lookupDir st name = none → ad.run name = .ok cid →
      (spawn ad st name task opts now).2 = .ok cid ∧
      ∀ task2 opts2 now2,
        spawn ad (spawn ad st name task opts now).1 name task2 opts2 now2
          = ((spawn ad st name task opts now).1,
             .error (.alreadyExists name))) := by
  refine ⟨validateName_ok_iff, ?_, ?_, ?_, ?_, ?_⟩
  · intro ad st name task opts now h
    obtain ⟨e, he, hk⟩ := validateName_invalid name h
    exact ⟨e, spawn_validate_error ad st name task opts now e he, hk⟩
  · intro ad st oldName newName now h
    obtain ⟨e, he, hk⟩ := validateName_invalid newName h
    exact ⟨e, rename_validate_error ad st oldName newName now e he, hk⟩
  · intro st sourceName newName opts now h
    obtain ⟨e, he, hk⟩ := validateName_invalid newName h
    exact ⟨e, clone_validate_error st sourceName newName opts now e he, hk⟩
  · intro ad st name task opts now hv h
    exact spawn_already_exists ad st name task opts now
      ((validateName_ok_iff name).mpr hv) h
  · intro ad st name task opts now cid hv h hr
    have hv' := (validateName_ok_iff name).mpr hv
    obtain ⟨h1, h2⟩ := spawn_fresh_ok ad st name task opts now cid hv' h hr
    exact ⟨h1, fun task2 opts2 now2 =>
      spawn_already_exists ad _ name task2 opts2 now2 hv' h2⟩

/-- Witness for C6, applying `spawn_name_spec` at a valid fresh name with a
succeeding adapter and at an invalid name. -/
theorem spawn_name_spec_witness :
    (spawn adOk { minions := [], network := [] } "job-1" "t" {} "T0").2
        = Except.ok "cid-1" ∧
    ∃ e, spawn adOk { minions := [], network := [] } ".bad" "t" {} "T0"
        = ({ minions := [], network := [] }, .error e) ∧
      isInvalidNameErr e = true :=
  ⟨(spawn_name_spec.2.2.2.2.2 adOk { minions := [], network := [] }
      "job-1" "t" {} "T0" "cid-1" (by decide) (by decide) rfl).1,
   spawn_name_spec.2.1 adOk { minions := [], network := [] }
      ".bad" "t" {} "T0" (by decide)⟩

/-! ### The mailbox: `send`, `inbox`, `clearInbox` -/

theorem lookupInbox_eq_lookupA (st : HiveState) (n : String) :
    lookupInbox st n = (lookupA st.network n).getD [] := rfl

theorem setInbox_minions (st : HiveState) (n : String)
    (files : List (String × Message)) :
    (setInbox st n files).minions = st.minions := by
  unfold setInbox
  split <;> rfl

theorem lookupInbox_setInbox_self (st : HiveState) (n : String)
    (files : List (String × Message)) :
    lookupInbox (setInbox st n files) n = files := by
  unfold setInbox
  by_cases hf : (st.network.find? (fun p => p.1 == n)).isSome
  · rw [if_pos hf]
    rw [lookupInbox_eq_lookupA]
    show (lookupA (st.network.map (fun p => if p.1 == n then (p.1, files) else p)) n).getD []
      = files
    rw [lookupA_replace_self]
    obtain ⟨q, hq⟩ := Option.isSome_iff_exists.mp hf
    show ((st.network.find? (fun p => p.1 == n)).map (·.2)
        |>.map (fun _ => files)).getD [] = files
    rw [hq]
    rfl
  · rw [if_neg hf]
    rw [lookupInbox_eq_lookupA]
    show (lookupA (st.network ++ [(n, files)]) n).getD [] = files
    rw [lookupA_append]
    have hnone : lookupA st.network n = none := by
      unfold lookupA
      rw [Option.not_isSome_iff_eq_none.mp hf]
      rfl
    rw [hnone]
    show ((lookupA [(n, files)] n).getD []) = files
    rw [lookupA_cons, if_pos rfl]
    rfl

theorem minionExists_setInbox (st : HiveState) (n m : String)
    (files : List (String × Message)) :
    minionExists (setInbox st n files) m = minionExists st m := by
  unfold minionExists lookupDir
  rw [setInbox_minions]

/-- C8: for an existing recipient holding M messages, `clearInbox` returns
`cleared = M` (the number of `.json` files in the inbox directory), a
subsequent `inbox` call returns the empty list, and a second `clearInbox`
with no intervening sends returns `cleared = 0`. -/
theorem clearInbox_spec (st : HiveState) (name : String)
    (h : minionExists st name = true) :
    (clearInbox st name).2
        = .ok ((lookupInbox st name).filter
            (fun p => endsWithStr p.1 ".json")).length ∧
    inbox (clearInbox st name).1 name = .ok [] ∧
    (clearInbox (clearInbox st name).1 name).2 = .ok 0 := by
  have hne : ¬ ¬ minionExists st name = true := by rw [h]; simp
  have hclear : clearInbox st name
      = (setInbox st name ((lookupInbox st name).filter
          (fun p => ¬ endsWithStr p.1 ".json")),
        .ok ((lookupInbox st name).filter
          (fun p => endsWithStr p.1 ".json")).length) := by
    unfold clearInbox
    rw [if_neg hne]
  have hex2 : minionExists (setInbox st name ((lookupInbox st name).filter
      (fun p => ¬ endsWithStr p.1 ".json"))) name = true := by
    rw [minionExists_setInbox]
    exact h
  have hlook2 : lookupInbox (setInbox st name ((lookupInbox st name).filter
      (fun p => ¬ endsWithStr p.1 ".json"))) name
      = (lookupInbox st name).filter (fun p => ¬ endsWithStr p.1 ".json") :=
    lookupInbox_setInbox_self st name _
  have hfilter2 : ((lookupInbox (setInbox st name
      ((lookupInbox st name).filter (fun p => ¬ endsWithStr p.1 ".json")))
      name).filter (fun p => endsWithStr p.1 ".json")) = [] := by
    rw [hlook2, List.filter_filter]
    apply List.filter_eq_nil_iff.mpr
    intro p hp
    simp
  refine ⟨by rw [hclear], ?_, ?_⟩
  · rw [hclear]
    show inbox (setInbox st name ((lookupInbox st name).filter
      (fun p => ¬ endsWithStr p.1 ".json"))) name = .ok []
    unfold inbox
    rw [if_neg (by rw [hex2]; simp), hfilter2]
    rfl
  · rw [hclear]
    show (clearInbox (setInbox st name ((lookupInbox st name).filter
      (fun p => ¬ endsWithStr p.1 ".json"))) name).2 = .ok 0
    unfold clearInbox
    rw [if_neg (by rw [hex2]; simp), hfilter2]
    rfl

/-- Witness for C8, applying `clearInbox_spec` to a recipient holding two
messages. -/
theorem clearInbox_spec_witness :
    (clearInbox
      { minions := [("b", mkDir "b" "pending" none (some "t") none)],
        network := [("b",
          [("100-a-r.json",
            { id := "100-a-r", fromName := "a", toName := "b",
              body := "m1", timestamp := "T1" }),
           ("101-a-r.json",
            { id := "101-a-r", fromName := "a", toName := "b",
              body := "m2", timestamp := "T2" })])] } "b").2
      = Except.ok 2 := by
  have h := (clearInbox_spec
    { minions := [("b", mkDir "b" "pending" none (some "t") none)],
      network := [("b",
        [("100-a-r.json",
          { id := "100-a-r", fromName := "a", toName := "b",
            body := "m1", timestamp := "T1" }),
         ("101-a-r.json",
          { id := "101-a-r", fromName := "a", toName := "b",
            body := "m2", timestamp := "T2" })])] } "b" (by decide)).1
  rw [h]
  decide

theorem endsWithStr_append (x suffix : String) :
    endsWithStr (x ++ suffix) suffix = true := by
  unfold endsWithStr
  rw [decide_eq_true_iff]
  show suffix.data <:+ (x ++ suffix).data
  have h : (x ++ suffix).data = x.data ++ suffix.data := rfl
  rw [h]
  exact List.suffix_append x.data suffix.data

theorem find?_none_of_ne {α : Type} (l : List (String × α)) (fname : String)
    (h : ∀ p ∈ l, p.1 ≠ fname) : l.find? (fun p => p.1 == fname) = none := by
  apply List.find?_eq_none.mpr
  intro p hp
  simpa using h p hp

theorem writeFile_fresh (files : List (String × Message)) (fname : String)
    (msg : Message)
    (h : files.find? (fun p => p.1 == fname) = none) :
    writeFile files fname msg = files ++ [(fname, msg)] := by
  unfold writeFile
  rw [h]
  rfl

theorem send_ok (st : HiveState) (fromName toName body : String)
    (hrtime : Nat) (rand now : String)
    (hf : minionExists st fromName = true)
    (ht : minionExists st toName = true)
    (hfresh : (lookupInbox st toName).find?
      (fun p =>
        p.1 == toString hrtime ++ "-" ++ fromName ++ "-" ++ rand ++ ".json")
      = none) :
    send st fromName toName body hrtime rand now
      = (setInbox st toName (lookupInbox st toName ++
          [(sendFilename
              { sender := fromName, body := body, hrtime := hrtime,
                rand := rand, now := now },
            sendMsg toName
              { sender := fromName, body := body, hrtime := hrtime,
                rand := rand, now := now })]),
         .ok (sendMsg toName
              { sender := fromName, body := body, hrtime := hrtime,
                rand := rand, now := now })) := by
  unfold send
  rw [if_neg (by rw [hf]; simp), if_neg (by rw [ht]; simp)]
  unfold writeFile
  dsimp only
  rw [hfresh]
  rfl

/-- The cumulative effect of a sequence of sends to one recipient whose
generated filenames are fresh (absent from the inbox and pairwise distinct):
minion directories are untouched and the recipient's inbox grows by one file
per send, in call order.  Without the freshness hypotheses a later duplicate
filename would overwrite the earlier file instead. -/
theorem sendAll_spec (toName : String) :
    ∀ (reqs : List SendReq) (st : HiveState),
    minionExists st toName = true →
    (∀ r ∈ reqs, minionExists st r.sender = true) →
    (∀ r ∈ reqs, ∀ p ∈ lookupInbox st toName, p.1 ≠ sendFilename r) →
    List.Pairwise (fun r1 r2 => sendFilename r1 ≠ sendFilename r2) reqs →
    (sendAll st toName reqs).minions = st.minions ∧
    lookupInbox (sendAll st toName reqs) toName
      = lookupInbox st toName
          ++ reqs.map (fun r => (sendFilename r, sendMsg toName r)) := by
  intro reqs
  induction reqs with
  | nil =>
    intro st hto hs hincl hpw
    exact ⟨rfl, by simp [sendAll]⟩
  | cons r rest ih =>
    intro st hto hs hincl hpw
    have hr := hs r (List.mem_cons_self r rest)
    have hfr : (lookupInbox st toName).find?
        (fun p =>
          p.1 == toString r.hrtime ++ "-" ++ r.sender ++ "-" ++ r.rand
            ++ ".json") = none :=
      find?_none_of_ne _ _
        (fun p hp => hincl r (List.mem_cons_self r rest) p hp)
    have hsend := send_ok st r.sender toName r.body r.hrtime r.rand r.now
      hr hto hfr
    have hstep : sendAll st toName (r :: rest)
        = sendAll (send st r.sender toName r.body r.hrtime r.rand r.now).1
            toName rest := rfl
    have hone : (send st r.sender toName r.body r.hrtime r.rand r.now).1
        = setInbox st toName (lookupInbox st toName
            ++ [(sendFilename r, sendMsg toName r)]) := by
      rw [hsend]
    have hmins1 : (send st r.sender toName r.body r.hrtime r.rand r.now).1.minions
        = st.minions := by
      rw [hone, setInbox_minions]
    have hlook1 : lookupInbox
        (send st r.sender toName r.body r.hrtime r.rand r.now).1 toName
        = lookupInbox st toName ++ [(sendFilename r, sendMsg toName r)] := by
      rw [hone, lookupInbox_setInbox_self]
    have hto1 : minionExists (send st r.sender toName r.body r.hrtime r.rand r.now).1
        toName = true := by
      unfold minionExists lookupDir
      rw [hmins1]
      exact hto
    have hs1 : ∀ r' ∈ rest, minionExists
        (send st r.sender toName r.body r.hrtime r.rand r.now).1 r'.sender = true := by
      intro r' hr'
      unfold minionExists lookupDir
      rw [hmins1]
      exact hs r' (List.mem_cons_of_mem r hr')
    obtain ⟨hpwh, hpwt⟩ := List.pairwise_cons.mp hpw
    have hincl1 : ∀ r' ∈ rest, ∀ p ∈ lookupInbox
        (send st r.sender toName r.body r.hrtime r.rand r.now).1 toName,
        p.1 ≠ sendFilename r' := by
      intro r' hr' p hp
      rw [hlook1] at hp
      rcases List.mem_append.mp hp with hp | hp
      · exact hincl r' (List.mem_cons_of_mem r hr') p hp
      · rw [List.mem_singleton.mp hp]
        exact hpwh r' hr'
    obtain ⟨hm2, hl2⟩ := ih (send st r.sender toName r.body r.hrtime r.rand r.now).1
      hto1 hs1 hincl1 hpwt
    rw [hstep]
    refine ⟨hm2.trans hmins1, ?_⟩
    rw [hl2, hlook1, List.map_cons, List.append_assoc]
    rfl

/-- Counterexample to C7 as stated: a send with hrtime 999 followed by a
send with hrtime 1000 to the same recipient.  The message ids embed the
decimal hrtime without padding and `inbox` sorts filenames lexicographically
(`.sort()`), so `1000-a-r2.json` sorts before `999-a-r1.json` and the inbox
returns the two messages in REVERSE send order. -/
theorem inbox_order_cex :
    inbox
      (send
        (send { minions := [("a", mkDir "a" "pending" none (some "t") none),
                            ("b", mkDir "b" "pending" none (some "t") none)],
                network := [] }
          "a" "b" "m1" 999 "r1" "T1").1
        "a" "b" "m2" 1000 "r2" "T2").1 "b"
      = Except.ok
        [{ id := "1000-a-r2", fromName := "a", toName := "b", body := "m2",
           timestamp := "T2" },
         { id := "999-a-r1", fromName := "a", toName := "b", body := "m1",
           timestamp := "T1" }] := by
  decide

/-- C7 amended: after a single `send` into an empty inbox, `inbox` returns
exactly one message whose sender, recipient and body match the arguments;
and a sequence of sends to one recipient is returned by `inbox` complete and
in send order PROVIDED the generated filenames are lexicographically
STRICTLY increasing in send order — which holds when the monotonic hrtime
values strictly increase at a fixed decimal width, but not across a width
change (see the counterexample), and not when two sends collide on an
identical id, where `fs.writeFileSync` overwrites the earlier file. -/
theorem send_order_spec (st : HiveState) (toName : String)
    (reqs : List SendReq)
    (hto : minionExists st toName = true)
    (hsenders : ∀ r ∈ reqs, minionExists st r.sender = true)
    (hempty : lookupInbox st toName = [])
    (hsorted : List.Pairwise
      (fun r1 r2 => strLe (sendFilename r1) (sendFilename r2) = true ∧
        sendFilename r1 ≠ sendFilename r2) reqs) :
    inbox (sendAll st toName reqs) toName
      = .ok (reqs.map (sendMsg toName)) := by
  have hincl : ∀ r ∈ reqs, ∀ p ∈ lookupInbox st toName,
      p.1 ≠ sendFilename r := by
    intro r hr p hp
    rw [hempty] at hp
    exact absurd hp (List.not_mem_nil p)
  obtain ⟨hmins, hlook⟩ := sendAll_spec toName reqs st hto hsenders hincl
    (hsorted.imp (fun h => h.2))
  have hex : minionExists (sendAll st toName reqs) toName = true := by
    unfold minionExists lookupDir
    rw [hmins]
    exact hto
  unfold inbox
  rw [if_neg (by rw [hex]; simp), hlook, hempty, List.nil_append]
  have hkeep : (reqs.map (fun r => (sendFilename r, sendMsg toName r))).filter
      (fun p => endsWithStr p.1 ".json")
      = reqs.map (fun r => (sendFilename r, sendMsg toName r)) := by
    apply List.filter_eq_self.mpr
    intro p hp
    rcases List.mem_map.mp hp with ⟨r, hr, hre⟩
    subst hre
    exact endsWithStr_append _ ".json"
  rw [hkeep]
  have hsorted' : List.Sorted (fun a b : String × Message => strLe a.1 b.1 = true)
      (reqs.map (fun r => (sendFilename r, sendMsg toName r))) := by
    rw [List.Sorted, List.pairwise_map]
    exact hsorted.imp (fun h => h.1)
  rw [List.Sorted.insertionSort_eq hsorted', List.map_map]
  rfl

/-- Witness for the amended C7: two sends with strictly increasing,
equal-width hrtimes come back from `inbox` in send order. -/
theorem send_order_spec_witness :
    inbox
      (sendAll
        { minions := [("a", mkDir "a" "pending" none (some "t") none),
                      ("b", mkDir "b" "pending" none (some "t") none)],
          network := [] } "b"
        [{ sender := "a", body := "m1", hrtime := 1001, rand := "r1", now := "T1" },
         { sender := "a", body := "m2", hrtime := 1002, rand := "r2", now := "T2" }])
      "b"
      = Except.ok
        [{ id := "1001-a-r1", fromName := "a", toName := "b", body := "m1",
           timestamp := "T1" },
         { id := "1002-a-r2", fromName := "a", toName := "b", body := "m2",
           timestamp := "T2" }] := by
  have h := send_order_spec
    { minions := [("a", mkDir "a" "pending" none (some "t") none),
                  ("b", mkDir "b" "pending" none (some "t") none)],
      network := [] } "b"
    [{ sender := "a", body := "m1", hrtime := 1001, rand := "r1", now := "T1" },
     { sender := "a", body := "m2", hrtime := 1002, rand := "r2", now := "T2" }]
    (by decide) (by decide) rfl (by decide)
  rw [h]
  rfl

/-! ### The bounded wait-for-completion loop -/

theorem isTerminalSig_false_of (o : Option String)
    (hc : o.map jsTrim ≠ some "COMPLETE") (hf : o.map jsTrim ≠ some "FAILED") :
    isTerminalSig o = false := by
  cases o with
  | none => rfl
  | some s =>
    unfold isTerminalSig
    have hmap : (some s).map jsTrim = some (jsTrim s) := rfl
    rw [hmap] at hc hf
    have hc' : ¬ jsTrim s = "COMPLETE" := fun h => hc (by rw [h])
    have hf' : ¬ jsTrim s = "FAILED" := fun h => hf (by rw [h])
    simp [hc', hf']

theorem isTerminalSig_ne_complete (o : Option String)
    (h : isTerminalSig o = false) : o.map jsTrim ≠ some "COMPLETE" := by
  cases o with
  | none => simp
  | some s =>
    unfold isTerminalSig at h
    simp only [Bool.or_eq_false_iff, beq_eq_false_iff_ne, ne_eq] at h
    have hmap : (some s).map jsTrim = some (jsTrim s) := rfl
    rw [hmap]
    intro hEq
    exact h.1 (Option.some_injective _ hEq)

theorem isTerminalSig_ne_failed (o : Option String)
    (h : isTerminalSig o = false) : o.map jsTrim ≠ some "FAILED" := by
  cases o with
  | none => simp
  | some s =>
    unfold isTerminalSig at h
    simp only [Bool.or_eq_false_iff, beq_eq_false_iff_ne, ne_eq] at h
    have hmap : (some s).map jsTrim = some (jsTrim s) := rfl
    rw [hmap]
    intro hEq
    exact h.2 (Option.some_injective _ hEq)

/-- Full characterization of the `wait` loop from an arbitrary poll index
`k`, by induction on the remaining fuel: with `K = timeoutMs / pollMs + 1`
(the first poll index whose idealized elapsed time `k * pollMs` strictly
exceeds the timeout), the loop inspects exactly the polls `k..K`. -/
theorem waitGo_spec (sig : Nat → Option String) (t p : Nat) (hp : 0 < p) :
    ∀ (fuel k : Nat), t / p + 2 ≤ k + fuel → k ≤ t / p + 1 →
    ((waitGo sig t p fuel k = .complete ↔
        ∃ j, k ≤ j ∧ j ≤ t / p + 1 ∧ (sig j).map jsTrim = some "COMPLETE" ∧
          ∀ i, k ≤ i → i < j → isTerminalSig (sig i) = false) ∧
     (waitGo sig t p fuel k = .failed ↔
        ∃ j, k ≤ j ∧ j ≤ t / p + 1 ∧ (sig j).map jsTrim = some "FAILED" ∧
          ∀ i, k ≤ i → i < j → isTerminalSig (sig i) = false) ∧
     (waitGo sig t p fuel k = .timeout ↔
        ∀ j, k ≤ j → j ≤ t / p + 1 → isTerminalSig (sig j) = false)) := by
  intro fuel
  induction fuel with
  | zero =>
    intro k hfuel hk
    omega
  | succ fuel ih =>
    intro k hfuel hk
    have hdiv : (k * p > t) ↔ (t / p + 1 ≤ k) := by
      rw [gt_iff_lt, ← Nat.div_lt_iff_lt_mul hp]
      omega
    by_cases hc : (sig k).map jsTrim = some "COMPLETE"
    · have hgo : waitGo sig t p (fuel + 1) k = .complete := by
        rw [waitGo]
        simp [hc]
      refine ⟨?_, ?_, ?_⟩
      · constructor
        · intro _
          exact ⟨k, le_refl k, hk, hc, fun i h1 h2 => absurd h2 (by omega)⟩
        · intro _
          exact hgo
      · constructor
        · intro h; rw [hgo] at h; cases h
        · rintro ⟨j, hj1, hj2, hjf, hjpre⟩
          exfalso
          by_cases hjk : j = k
          · subst hjk; rw [hc] at hjf; exact absurd hjf (by decide)
          · exact absurd hc (isTerminalSig_ne_complete _
              (hjpre k (le_refl k) (by omega)))
      · constructor
        · intro h; rw [hgo] at h; cases h
        · intro hall
          exact absurd hc (isTerminalSig_ne_complete _ (hall k (le_refl k) hk))
    · by_cases hf : (sig k).map jsTrim = some "FAILED"
      · have hgo : waitGo sig t p (fuel + 1) k = .failed := by
          rw [waitGo]
          simp [hc, hf]
        refine ⟨?_, ?_, ?_⟩
        · constructor
          · intro h; rw [hgo] at h; cases h
          · rintro ⟨j, hj1, hj2, hjc, hjpre⟩
            exfalso
            by_cases hjk : j = k
            · subst hjk; rw [hf] at hjc; exact absurd hjc (by decide)
            · exact absurd hf (isTerminalSig_ne_failed _
                (hjpre k (le_refl k) (by omega)))
        · constructor
          · intro _
            exact ⟨k, le_refl k, hk, hf, fun i h1 h2 => absurd h2 (by omega)⟩
          · intro _
            exact hgo
        · constructor
          · intro h; rw [hgo] at h; cases h
          · intro hall
            exact absurd hf (isTerminalSig_ne_failed _ (hall k (le_refl k) hk))
      · have hterm : isTerminalSig (sig k) = false :=
          isTerminalSig_false_of _ hc hf
        by_cases htime : k * p > t
        · have hkK : k = t / p + 1 := by
            have := hdiv.mp htime
            omega
          have hgo : waitGo sig t p (fuel + 1) k = .timeout := by
            rw [waitGo]
            simp [hc, hf, htime]
          refine ⟨?_, ?_, ?_⟩
          · constructor
            · intro h; rw [hgo] at h; cases h
            · rintro ⟨j, hj1, hj2, hjc, _⟩
              exfalso
              have : j = k := by omega
              subst this
              exact absurd hjc hc
          · constructor
            · intro h; rw [hgo] at h; cases h
            · rintro ⟨j, hj1, hj2, hjf, _⟩
              exfalso
              have : j = k := by omega
              subst this
              exact absurd hjf hf
          · constructor
            · intro _ j hj1 hj2
              have : j = k := by omega
              subst this
              exact hterm
            · intro _
              exact hgo
        · have hkK : k < t / p + 1 := by
            by_contra hcon
            exact htime (hdiv.mpr (by omega))
          have hgo : waitGo sig t p (fuel + 1) k
              = waitGo sig t p fuel (k + 1) := by
            rw [waitGo]
            simp [hc, hf, htime]
          obtain ⟨ihc, ihf, iht⟩ := ih (k + 1) (by omega) (by omega)
          rw [hgo]
          refine ⟨?_, ?_, ?_⟩
          · rw [ihc]
            constructor
            · rintro ⟨j, hj1, hj2, hjc, hjpre⟩
              refine ⟨j, by omega, hj2, hjc, fun i hi1 hi2 => ?_⟩
              by_cases hik : i = k
              · subst hik; exact hterm
              · exact hjpre i (by omega) hi2
            · rintro ⟨j, hj1, hj2, hjc, hjpre⟩
              have hjk : j ≠ k := by
                intro hEq; subst hEq; exact hc hjc
              exact ⟨j, by omega, hj2, hjc,
                fun i hi1 hi2 => hjpre i (by omega) hi2⟩
          · rw [ihf]
            constructor
            · rintro ⟨j, hj1, hj2, hjf, hjpre⟩
              refine ⟨j, by omega, hj2, hjf, fun i hi1 hi2 => ?_⟩
              by_cases hik : i = k
              · subst hik; exact hterm
              · exact hjpre i (by omega) hi2
            · rintro ⟨j, hj1, hj2, hjf, hjpre⟩
              have hjk : j ≠ k := by
                intro hEq; subst hEq; exact hf hjf
              exact ⟨j, by omega, hj2, hjf,
                fun i hi1 hi2 => hjpre i (by omega) hi2⟩
          · rw [iht]
            constructor
            · intro hall j hj1 hj2
              by_cases hjk : j = k
              · subst hjk; exact hterm
              · exact hall j (by omega) hj2
            · intro hall j hj1 hj2
              exact hall j (by omega) hj2

/-- C9: for every positive poll interval, the wait-for-completion loop
returns exactly one of the three outcomes, and which one is fully
characterized over the polls `0..timeoutMs/pollMs + 1` (the last poll being
the first whose idealized elapsed time exceeds the timeout): `COMPLETE` when
some poll up to the deadline reads a trimmed `COMPLETE` before any `FAILED`,
`FAILED` symmetrically, and `TIMEOUT` exactly when no poll up to the
deadline observes a terminal signal — so the loop never runs past the
deadline and the three outcomes are mutually exclusive and exhaustive. -/
theorem wait_spec (sig : Nat → Option String) (timeoutMs pollMs : Nat)
    (hp : 0 < pollMs) :
    (wait sig timeoutMs pollMs = .complete ↔
      ∃ j, j ≤ timeoutMs / pollMs + 1 ∧ (sig j).map jsTrim = some "COMPLETE" ∧
        ∀ i < j, isTerminalSig (sig i) = false) ∧
    (wait sig timeoutMs pollMs = .failed ↔
      ∃ j, j ≤ timeoutMs / pollMs + 1 ∧ (sig j).map jsTrim = some "FAILED" ∧
        ∀ i < j, isTerminalSig (sig i) = false) ∧
    (wait sig timeoutMs pollMs = .timeout ↔
      ∀ j ≤ timeoutMs / pollMs + 1, isTerminalSig (sig j) = false) := by
  have h0 : timeoutMs / pollMs + 2 ≤ 0 + (timeoutMs / pollMs + 2) := by
    rw [Nat.zero_add]
  have h1 : (0 : Nat) ≤ timeoutMs / pollMs + 1 := Nat.zero_le _
  obtain ⟨hc, hf, ht⟩ := waitGo_spec sig timeoutMs pollMs hp
    (timeoutMs / pollMs + 2) 0 h0 h1
  refine ⟨?_, ?_, ?_⟩
  · rw [wait, hc]
    constructor
    · rintro ⟨j, _, hj2, hjc, hjpre⟩
      exact ⟨j, hj2, hjc, fun i hi => hjpre i (by omega) hi⟩
    · rintro ⟨j, hj2, hjc, hjpre⟩
      exact ⟨j, by omega, hj2, hjc, fun i _ hi => hjpre i hi⟩
  · rw [wait, hf]
    constructor
    · rintro ⟨j, _, hj2, hjf, hjpre⟩
      exact ⟨j, hj2, hjf, fun i hi => hjpre i (by omega) hi⟩
    · rintro ⟨j, hj2, hjf, hjpre⟩
      exact ⟨j, by omega, hj2, hjf, fun i _ hi => hjpre i hi⟩
  · rw [wait, ht]
    constructor
    · intro hall j hj
      exact hall j (by omega) hj
    · intro hall j _ hj
      exact hall j hj

/-- Witness for C9, applying `wait_spec` with a signal that trims to
`COMPLETE` at the first poll, and with one that never signals (timeout). -/
theorem wait_spec_witness :
    wait (fun _ => some "COMPLETE") 1000 200 = .complete ∧
    wait (fun _ => none) 1000 200 = .timeout := by
  constructor
  · exact ((wait_spec (fun _ => some "COMPLETE") 1000 200 (by decide)).1).mpr
      ⟨0, by decide, by decide, fun i hi => absurd hi (by omega)⟩
  · exact ((wait_spec (fun _ => none) 1000 200 (by decide)).2.2).mpr
      (fun j _ => rfl)

/-! ### C10: the metadata invariant -/

theorem truthy_ne_none (o : Option String) (h : truthy o = true) : o ≠ none := by
  cases o with
  | none => exact absurd h (by decide)
  | some s => exact fun hh => Option.noConfusion hh

theorem minionInv_of_statusEq (m : Minion) (s : String) (hs : m.status = s)
    (h1 : s ≠ "running") (h2 : s ≠ "paused") (h3 : s ≠ "waiting") :
    minionInv m := by
  refine ⟨fun hr => ?_, fun hw => ?_⟩
  · rw [hs] at hr
    exact hr.elim (fun e => absurd e h1) (fun e => absurd e h2)
  · rw [hs] at hw
    exact absurd hw h3

theorem minionInv_containerEq (m : Minion) (s : String) (hs : m.status = s)
    (hc : m.containerId ≠ none) (h3 : s ≠ "waiting") : minionInv m := by
  refine ⟨fun _ => hc, fun hw => ?_⟩
  rw [hs] at hw
  exact absurd hw h3

theorem minionInv_waitingOf (m : Minion) (hs : m.status = "waiting")
    (hd : m.dependsOn ≠ none) (hc : m.containerId = none) : minionInv m := by
  refine ⟨fun hr => ?_, fun _ => ⟨hd, hc⟩⟩
  rcases hr with hr | hr <;> rw [hs] at hr <;> exact absurd hr (by decide)

theorem lookupDir_mem (st : HiveState) (n : String) (d : MinionDir)
    (hl : lookupDir st n = some d) : ∃ p ∈ st.minions, p.1 = n ∧ p.2 = d := by
  unfold lookupDir at hl
  cases hf : st.minions.find? (fun p => p.1 == n) with
  | none => rw [hf] at hl; cases hl
  | some q =>
    rw [hf] at hl
    have hl2 : some q.2 = some d := hl
    have hq1 := List.find?_some hf
    exact ⟨q, List.mem_of_find?_eq_some hf, by simpa using hq1,
      Option.some.inj hl2⟩

theorem stateInv_lookup (st : HiveState) (n : String) (d : MinionDir)
    (h : stateInv st) (hl : lookupDir st n = some d) : minionInv d.meta := by
  rcases lookupDir_mem st n d hl with ⟨p, hp, _, hp2⟩
  rw [← hp2]
  exact h p hp

theorem stateInv_setDir (st : HiveState) (n : String) (d : MinionDir)
    (h : stateInv st) (hd : minionInv d.meta) : stateInv (setDir st n d) := by
  intro p hp
  simp only [setDir] at hp
  rcases List.mem_map.mp hp with ⟨q, hq, hpq⟩
  by_cases hk : (q.1 == n) = true
  · rw [if_pos hk] at hpq
    rw [← hpq]
    exact hd
  · rw [if_neg hk] at hpq
    rw [← hpq]
    exact h q hq

theorem stateInv_addDir (st : HiveState) (n : String) (d : MinionDir)
    (h : stateInv st) (hd : minionInv d.meta) : stateInv (addDir st n d) := by
  intro p hp
  simp only [addDir] at hp
  rcases List.mem_append.mp hp with hp | hp
  · exact h p hp
  · rw [List.mem_singleton.mp hp]
    exact hd

theorem stateInv_removeDir (st : HiveState) (n : String)
    (h : stateInv st) : stateInv (removeDir st n) := by
  intro p hp
  simp only [removeDir] at hp
  exact h p (List.mem_of_mem_filter hp)

theorem stateInv_spawn (ad : Adapter) (st : HiveState) (name task : String)
    (opts : StartOptions) (now : String) (h : stateInv st) :
    stateInv (spawn ad st name task opts now).1 := by
  unfold spawn
  cases validateName name with
  | error e => exact h
  | ok u =>
    dsimp only
    by_cases he : lookupDir st name ≠ none
    · rw [if_pos he]; exact h
    · rw [if_neg he]
      cases ad.run name with
      | error e =>
        exact stateInv_addDir st name _ h
          (minionInv_of_statusEq _ "pending" rfl (by decide) (by decide)
            (by decide))
      | ok cid =>
        refine stateInv_setDir _ name _
          (stateInv_addDir st name _ h
            (minionInv_of_statusEq _ "pending" rfl (by decide) (by decide)
              (by decide))) ?_
        exact minionInv_containerEq _ "running" rfl
          (fun hh => Option.noConfusion hh) (by decide)

theorem stateInv_spawnWaiting (st : HiveState) (name task afterMinion : String)
    (opts : StartOptions) (now : String) (h : stateInv st) :
    stateInv (spawnWaiting st name task afterMinion opts now).1 := by
  unfold spawnWaiting
  cases validateName name with
  | error e => exact h
  | ok u =>
    dsimp only
    by_cases he : lookupDir st name ≠ none
    · rw [if_pos he]; exact h
    · rw [if_neg he]
      by_cases hdep : afterMinion ≠ "" ∧ lookupDir st afterMinion = none
      · rw [if_pos hdep]; exact h
      · rw [if_neg hdep]
        exact stateInv_addDir st name _ h
          (minionInv_waitingOf _ rfl (fun hh => Option.noConfusion hh) rfl)

theorem stateInv_start (ad : Adapter) (st : HiveState) (name : String)
    (opts : StartOptions) (now : String) (h : stateInv st) :
    stateInv (start ad st name opts now).1 := by
  unfold start
  cases lookupDir st name with
  | none => exact h
  | some dir =>
    dsimp only
    by_cases hs : dir.meta.status ≠ "pending" ∧ dir.meta.status ≠ "waiting"
    · rw [if_pos hs]; exact h
    · rw [if_neg hs]
      by_cases ht : dir.taskFile = none
      · rw [if_pos ht]; exact h
      · rw [if_neg ht]
        cases ad.run name with
        | error e => exact h
        | ok cid =>
          refine stateInv_setDir st name _ h ?_
          exact minionInv_containerEq _ "running" rfl
            (fun hh => Option.noConfusion hh) (by decide)

theorem stateInv_kill (ad : Adapter) (st : HiveState) (name now : String)
    (h : stateInv st) : stateInv (kill ad st name now).1 := by
  unfold kill
  cases lookupDir st name with
  | none => exact h
  | some dir =>
    refine stateInv_setDir st name _ h ?_
    exact minionInv_of_statusEq _ "killed" rfl (by decide) (by decide)
      (by decide)

theorem stateInv_pause (ad : Adapter) (st : HiveState) (name now : String)
    (h : stateInv st) : stateInv (pause ad st name now).1 := by
  unfold pause
  cases lookupDir st name with
  | none => exact h
  | some dir =>
    dsimp only
    by_cases hc : ¬ truthy dir.meta.containerId = true
    · rw [if_pos hc]; exact h
    · rw [if_neg hc]
      cases ad.pause name with
      | error e => exact h
      | ok u =>
        refine stateInv_setDir st name _ h ?_
        exact minionInv_containerEq _ "paused" rfl
          (truthy_ne_none _ (not_not.mp hc)) (by decide)

theorem stateInv_resume (ad : Adapter) (st : HiveState) (name now : String)
    (h : stateInv st) : stateInv (resume ad st name now).1 := by
  unfold resume
  cases lookupDir st name with
  | none => exact h
  | some dir =>
    dsimp only
    by_cases hc : ¬ truthy dir.meta.containerId = true
    · rw [if_pos hc]; exact h
    · rw [if_neg hc]
      cases ad.unpause name with
      | error e => exact h
      | ok u =>
        refine stateInv_setDir st name _ h ?_
        exact minionInv_containerEq _ "running" rfl
          (truthy_ne_none _ (not_not.mp hc)) (by decide)

theorem stateInv_restart (ad : Adapter) (st : HiveState) (name now : String)
    (h : stateInv st) : stateInv (restart ad st name now).1 := by
  unfold restart
  cases lookupDir st name with
  | none => exact h
  | some dir =>
    dsimp only
    by_cases hc : ¬ truthy dir.meta.containerId = true
    · rw [if_pos hc]; exact h
    · rw [if_neg hc]
      cases ad.restart name with
      | error e => exact h
      | ok u =>
        refine stateInv_setDir st name _ h ?_
        exact minionInv_containerEq _ "running" rfl
          (truthy_ne_none _ (not_not.mp hc)) (by decide)

theorem stateInv_retry (ad : Adapter) (st : HiveState) (name : String)
    (opts : StartOptions) (now : String) (h : stateInv st) :
    stateInv (retry ad st name opts now).1 := by
  unfold retry
  cases hl : lookupDir st name with
  | none => exact h
  | some dir =>
    dsimp only
    cases dir.taskFile with
    | none => exact h
    | some task =>
      dsimp only
      have hold : minionInv dir.meta := stateInv_lookup st name dir h hl
      cases ad.run name with
      | error e => exact stateInv_setDir st name _ h hold
      | ok cid =>
        refine stateInv_setDir _ name _ (stateInv_setDir st name _ h hold) ?_
        exact minionInv_containerEq _ "running" rfl
          (fun hh => Option.noConfusion hh) (by decide)

theorem stateInv_clone (st : HiveState) (sourceName newName : String)
    (opts : CloneOptions) (now : String) (h : stateInv st) :
    stateInv (clone st sourceName newName opts now).1 := by
  unfold clone
  cases validateName newName with
  | error e => exact h
  | ok u =>
    dsimp only
    cases lookupDir st sourceName with
    | none => exact h
    | some src =>
      dsimp only
      by_cases he : lookupDir st newName ≠ none
      · rw [if_pos he]; exact h
      · rw [if_neg he]
        cases src.taskFile with
        | none => exact h
        | some task =>
          dsimp only
          by_cases hw : opts.workspace = true
          · rw [if_pos hw]
            dsimp only
            have h1 : stateInv (addDir st newName
                { meta :=
                    { src.meta with
                      name := newName, clonedFrom := some sourceName,
                      clonedAt := some now, containerId := none,
                      status := "pending" },
                  taskFile := some task, statusFile := none }) :=
              stateInv_addDir st newName _ h
                (minionInv_of_statusEq _ "pending" rfl (by decide) (by decide)
                  (by decide))
            by_cases hi : opts.inbox = true
            · rw [if_pos hi]
              intro p hp
              rw [setInbox_minions] at hp
              exact h1 p hp
            · rw [if_neg hi]; exact h1
          · rw [if_neg hw]
            exact stateInv_addDir st newName _ h
              (minionInv_of_statusEq _ "pending" rfl (by decide) (by decide)
                (by decide))

theorem stateInv_rename (ad : Adapter) (st : HiveState)
    (oldName newName now : String) (h : stateInv st)
    (hactive : ∀ p ∈ st.minions, p.1 = oldName →
      p.2.meta.status ≠ "running" ∧ p.2.meta.status ≠ "paused") :
    stateInv (rename ad st oldName newName now).1 := by
  unfold rename
  cases validateName newName with
  | error e => exact h
  | ok u =>
    dsimp only
    cases hl : lookupDir st oldName with
    | none => exact h
    | some dir =>
      dsimp only
      by_cases he : lookupDir st newName ≠ none
      · rw [if_pos he]; exact h
      · rw [if_neg he]
        by_cases hcf :
            (if truthy dir.meta.containerId = true then
              match ad.inspect oldName with
              | .ok s =>
                stripSquotes (jsTrim s) == "running" ||
                  stripSquotes (jsTrim s) == "paused"
              | .error _ => false
            else false) = true
        · rw [if_pos hcf]; exact h
        · rw [if_neg hcf]
          rcases lookupDir_mem st oldName dir hl with ⟨p, hp, hp1, hp2⟩
          have hst := hactive p hp hp1
          rw [hp2] at hst
          have hm : minionInv dir.meta := stateInv_lookup st oldName dir h hl
          have hmeta : minionInv
              ({ dir.meta with
                 name := newName, renamedFrom := some oldName,
                 renamedAt := some now, containerId := none }) := by
            refine ⟨fun hr => ?_, fun hwt => ?_⟩
            · rcases hr with hr | hr
              · exact absurd hr hst.1
              · exact absurd hr hst.2
            · exact ⟨(hm.2 hwt).1, rfl⟩
          have h1 : stateInv (addDir (removeDir st oldName) newName
              { dir with meta :=
                  { dir.meta with
                    name := newName, renamedFrom := some oldName,
                    renamedAt := some now, containerId := none } }) :=
            stateInv_addDir _ newName _ (stateInv_removeDir st oldName h) hmeta
          split
          · intro p2 hp2b
            rw [setInbox_minions] at hp2b
            exact h1 p2 hp2b
          · exact h1

/-- **C10** (corrected).  The spec's metadata invariant — status `running` or
`paused` implies a non-null container id, and status `waiting` implies a
non-null `dependsOn` with a null container id — is preserved unconditionally
by `spawn`, `spawnWaiting`, `start`, `kill`, `pause`, `resume`, `restart`,
`retry` and `clone`; `rename` preserves it provided the renamed minion's
metadata status is not `running` or `paused` (renaming such a minion can
break it, because `rename` keeps the metadata status but nulls the container
id — see the counterexample). -/
theorem metadata_invariant_spec (ad : Adapter) (st : HiveState)
    (hinv : stateInv st) :
    (∀ name task opts now, stateInv (spawn ad st name task opts now).1) ∧
    (∀ name task dep opts now,
      stateInv (spawnWaiting st name task dep opts now).1) ∧
    (∀ name opts now, stateInv (start ad st name opts now).1) ∧
    (∀ name now, stateInv (kill ad st name now).1) ∧
    (∀ name now, stateInv (pause ad st name now).1) ∧
    (∀ name now, stateInv (resume ad st name now).1) ∧
    (∀ name now, stateInv (restart ad st name now).1) ∧
    (∀ name opts now, stateInv (retry ad st name opts now).1) ∧
    (∀ src tgt opts now, stateInv (clone st src tgt opts now).1) ∧
    (∀ old tgt now,
      (∀ p ∈ st.minions, p.1 = old →
        p.2.meta.status ≠ "running" ∧ p.2.meta.status ≠ "paused") →
      stateInv (rename ad st old tgt now).1) :=
  ⟨fun n t o w => stateInv_spawn ad st n t o w hinv,
   fun n t d o w => stateInv_spawnWaiting st n t d o w hinv,
   fun n o w => stateInv_start ad st n o w hinv,
   fun n w => stateInv_kill ad st n w hinv,
   fun n w => stateInv_pause ad st n w hinv,
   fun n w => stateInv_resume ad st n w hinv,
   fun n w => stateInv_restart ad st n w hinv,
   fun n o w => stateInv_retry ad st n o w hinv,
   fun s t o w => stateInv_clone st s t o w hinv,
   fun o t w ha => stateInv_rename ad st o t w hinv ha⟩

/-- Witness for C10, applying `metadata_invariant_spec` to a one-minion
state holding a `pending` minion `a` and renaming it to `b`. -/
theorem metadata_invariant_spec_witness :
    stateInv stPend ∧ stateInv (rename adOk stPend "a" "b" "T1").1 :=
  ⟨by decide,
   (metadata_invariant_spec adOk stPend (by decide)).2.2.2.2.2.2.2.2.2
     "a" "b" "T1" (by decide)⟩

/-- **C10**, counterexample: not every operation of the claim preserves the
metadata invariant.  Spawning `a` (leaving metadata status `running` with
container id `c1`) on an adapter whose `docker inspect` reports the container
as `exited`, then renaming `a` to `b`, succeeds — the running-conflict guard
trusts only the docker-reported status — and leaves `b` with metadata status
`running` but a cleared container id, violating the invariant. -/
theorem rename_running_cex :
    stateInv stExited ∧
    (lookupDir stExited "a").map (fun d => d.meta.status) = some "running" ∧
    (rename adExited stExited "a" "b" "T1").2 = .ok () ∧
    ¬ stateInv (rename adExited stExited "a" "b" "T1").1 := by decide

end Hive
